import Mathlib

/-!
Verification of the SML/LLMQ engine of rust-dashcore against its
natural-language specification.  Byte strings are `List Nat` with each
byte kept below 256 by construction; machine integers are `Nat`/`Int`
with explicit reductions mod 2^w where the code can overflow.
-/

set_option maxRecDepth 100000

deriving instance DecidableEq for Except

namespace Dashcore

/-- 2^32, the modulus of 32-bit words. -/
def w32 : Nat := 4294967296

/-- Little-endian encoding of a `u16` (2 bytes), as `consensus_encode` for `u16`. -/
def u16le (n : Nat) : List Nat := [n % 256, n / 256 % 256]

/-- Little-endian encoding of a `u32` (4 bytes), as `consensus_encode` for `u32`. -/
def u32le (n : Nat) : List Nat :=
  [n % 256, n / 256 % 256, n / 65536 % 256, n / 16777216 % 256]

/-- Little-endian encoding of a `u64` (8 bytes). -/
def u64le (n : Nat) : List Nat :=
  [n % 256, n / 256 % 256, n / 65536 % 256, n / 16777216 % 256,
   n / 4294967296 % 256, n / 1099511627776 % 256,
   n / 281474976710656 % 256, n / 72057594037927936 % 256]

/-- Split a list into consecutive chunks of size `k` (last chunk may be short);
structural recursion on a fuel argument so that it reduces in the kernel. -/
def chunkifyFuel (k : Nat) : Nat → List α → List (List α)
  | 0, _ => []
  | _, [] => []
  | fuel + 1, a :: l => (a :: l).take k :: chunkifyFuel k fuel ((a :: l).drop k)

/-- Split a list into consecutive chunks of size `k > 0` (last chunk may be short). -/
def chunkify (k : Nat) (l : List α) : List (List α) := chunkifyFuel k l.length l

/-! ## SHA-256

Modelled from the spec: the `hashes` crate supplying `sha256::Hash` and
`sha256d::Hash` is not under `src/`; per the spec's glossary a `sha256`
hash type is the single SHA-256 digest and a `sha256d` hash type the
double SHA-256 digest of the input bytes.  This is the standard FIPS
180-4 SHA-256 over byte strings. -/

/-- Right rotation of a 32-bit word. -/
def rotr32 (n x : Nat) : Nat := (x / 2 ^ n + x % 2 ^ n * 2 ^ (32 - n)) % w32

/-- SHA-256 small sigma 0. -/
def ssig0 (x : Nat) : Nat := (rotr32 7 x) ^^^ (rotr32 18 x) ^^^ (x / 2 ^ 3)

/-- SHA-256 small sigma 1. -/
def ssig1 (x : Nat) : Nat := (rotr32 17 x) ^^^ (rotr32 19 x) ^^^ (x / 2 ^ 10)

/-- SHA-256 big sigma 0. -/
def bsig0 (x : Nat) : Nat := (rotr32 2 x) ^^^ (rotr32 13 x) ^^^ (rotr32 22 x)

/-- SHA-256 big sigma 1. -/
def bsig1 (x : Nat) : Nat := (rotr32 6 x) ^^^ (rotr32 11 x) ^^^ (rotr32 25 x)

/-- SHA-256 choice function. -/
def sha2ch (x y z : Nat) : Nat := (x &&& y) ^^^ ((x ^^^ 4294967295) &&& z)

/-- SHA-256 majority function. -/
def sha2maj (x y z : Nat) : Nat := (x &&& y) ^^^ (x &&& z) ^^^ (y &&& z)

/-- The 64 SHA-256 round constants. -/
def sha2K : List Nat :=
  [1116352408, 1899447441, 3049323471, 3921009573, 961987163, 1508970993,
   2453635748, 2870763221, 3624381080, 310598401, 607225278, 1426881987,
   1925078388, 2162078206, 2614888103, 3248222580, 3835390401, 4022224774,
   264347078, 604807628, 770255983, 1249150122, 1555081692, 1996064986,
   2554220882, 2821834349, 2952996808, 3210313671, 3336571891, 3584528711,
   113926993, 338241895, 666307205, 773529912, 1294757372, 1396182291,
   1695183700, 1986661051, 2177026350, 2456956037, 2730485921, 2820302411,
   3259730800, 3345764771, 3516065817, 3600352804, 4094571909, 275423344,
   430227734, 506948616, 659060556, 883997877, 958139571, 1322822218,
   1537002063, 1747873779, 1955562222, 2024104815, 2227730452, 2361852424,
   2428436474, 2756734187, 3204031479, 3329325298]

/-- The SHA-256 initial state. -/
def sha2H0 : List Nat :=
  [1779033703, 3144134277, 1013904242, 2773480762,
   1359893119, 2600822924, 528734635, 1541459225]

/-- Interpret 4 bytes as a big-endian 32-bit word. -/
def wordOfBytesBE (l : List Nat) : Nat := l.foldl (fun a b => a * 256 + b) 0

/-- Emit a 32-bit word as 4 big-endian bytes. -/
def bytesOfWordBE (x : Nat) : List Nat :=
  [x / 16777216 % 256, x / 65536 % 256, x / 256 % 256, x % 256]

/-- SHA-256 padding: append `0x80`, zeros to 56 mod 64, then the 64-bit
big-endian bit length. -/
def sha2pad (msg : List Nat) : List Nat :=
  let l := msg.length
  msg ++ 128 :: List.replicate ((119 - l % 64) % 64) 0 ++
    [l * 8 / 72057594037927936 % 256, l * 8 / 281474976710656 % 256,
     l * 8 / 1099511627776 % 256, l * 8 / 4294967296 % 256,
     l * 8 / 16777216 % 256, l * 8 / 65536 % 256, l * 8 / 256 % 256, l * 8 % 256]

/-- Extend a 16-word message schedule to 64 words. -/
def extendSchedule (w : List Nat) : List Nat :=
  (List.range 48).foldl (fun w _ =>
    let n := w.length
    w ++ [(ssig1 (w.getD (n - 2) 0) + w.getD (n - 7) 0 +
           ssig0 (w.getD (n - 15) 0) + w.getD (n - 16) 0) % w32]) w

/-- One SHA-256 compression round. -/
def sha2round (st : List Nat) (kw : Nat × Nat) : List Nat :=
  match st with
  | [a, b, c, d, e, f, g, h] =>
    let t1 := (h + bsig1 e + sha2ch e f g + kw.1 + kw.2) % w32
    let t2 := (bsig0 a + sha2maj a b c) % w32
    [(t1 + t2) % w32, a, b, c, (d + t1) % w32, e, f, g]
  | st => st

/-- Process one 64-byte block into the running state. -/
def sha2block (st : List Nat) (block : List Nat) : List Nat :=
  let sched := extendSchedule ((chunkify 4 block).map wordOfBytesBE)
  let st' := (sha2K.zip sched).foldl sha2round st
  (st.zip st').map (fun p => (p.1 + p.2) % w32)

/-- SHA-256 of a byte string, as 32 digest bytes. -/
def sha256 (msg : List Nat) : List Nat :=
  (((chunkify 64 (sha2pad msg)).foldl sha2block sha2H0).map bytesOfWordBE).flatten

/-- Double SHA-256, the digest behind the `sha256d`-backed hash newtypes. -/
def sha256d (msg : List Nat) : List Nat := sha256 (sha256 msg)

/-! ## Networks and LLMQ types

`Network` is embedded from the four variants matched in
`sml/llmq_type/network.rs`.  The `LLMQType` enum itself is declared in a
module that is not under `src/`; the quorum entry carries it on the wire
as a single `u8`, so it is embedded as its numeric wire value, with the
named constants used by `network.rs`. -/

inductive Network
  | dash
  | testnet
  | devnet
  | regtest
  deriving DecidableEq

/-- Wire value of `LLMQType::Llmqtype50_60`. -/
def llmqtype50_60 : Nat := 1
/-- Wire value of `LLMQType::Llmqtype400_60`. -/
def llmqtype400_60 : Nat := 2
/-- Wire value of `LLMQType::Llmqtype400_85`. -/
def llmqtype400_85 : Nat := 3
/-- Wire value of `LLMQType::Llmqtype100_67`. -/
def llmqtype100_67 : Nat := 4
/-- Wire value of `LLMQType::Llmqtype60_75`. -/
def llmqtype60_75 : Nat := 5
/-- Wire value of `LLMQType::Llmqtype25_67`. -/
def llmqtype25_67 : Nat := 6
/-- Wire value of `LLMQType::LlmqtypeTest`. -/
def llmqtypeTest : Nat := 100
/-- Wire value of `LLMQType::LlmqtypeDevnet`. -/
def llmqtypeDevnet : Nat := 101
/-- Wire value of `LLMQType::LlmqtypeTestDIP0024`. -/
def llmqtypeTestDIP0024 : Nat := 103
/-- Wire value of `LLMQType::LlmqtypeTestInstantSend`. -/
def llmqtypeTestInstantSend : Nat := 104
/-- Wire value of `LLMQType::LlmqtypeDevnetDIP0024`. -/
def llmqtypeDevnetDIP0024 : Nat := 105

/-- Modelled from the spec: the static per-`LLMQType` quorum size table
(`llmq_type.size()`); the table itself lives in the `LLMQType` module that
is not under `src/`.  Sizes follow the `LlmqtypeN_M` naming (`size = N`). -/
def llmqSize (t : Nat) : Nat :=
  if t = llmqtype50_60 then 50
  else if t = llmqtype400_60 then 400
  else if t = llmqtype400_85 then 400
  else if t = llmqtype100_67 then 100
  else if t = llmqtype60_75 then 60
  else if t = llmqtype25_67 then 25
  else if t = llmqtypeTest then 3
  else if t = llmqtypeDevnet then 12
  else if t = llmqtypeTestDIP0024 then 4
  else if t = llmqtypeTestInstantSend then 3
  else if t = llmqtypeDevnetDIP0024 then 8
  else 0

/-- Modelled from the spec: the static per-`LLMQType` threshold table
(`llmq_type.threshold()`); the table itself lives in the `LLMQType` module
that is not under `src/`.  Thresholds follow the `LlmqtypeN_M` naming
(`threshold = ceil(N * M / 100)`). -/
def llmqThreshold (t : Nat) : Nat :=
  if t = llmqtype50_60 then 30
  else if t = llmqtype400_60 then 240
  else if t = llmqtype400_85 then 340
  else if t = llmqtype100_67 then 67
  else if t = llmqtype60_75 then 45
  else if t = llmqtype25_67 then 17
  else if t = llmqtypeTest then 2
  else if t = llmqtypeDevnet then 6
  else if t = llmqtypeTestDIP0024 then 2
  else if t = llmqtypeTestInstantSend then 2
  else if t = llmqtypeDevnetDIP0024 then 4
  else 0

/-- `Network::platform_type` from `sml/llmq_type/network.rs`. -/
def platform_type : Network → Nat
  | .dash => llmqtype100_67
  | .testnet => llmqtype25_67
  | .devnet => llmqtypeDevnet
  | .regtest => llmqtypeTest

/-- Modelled from the spec: the Core v20 activation height per network
(`network.core_v20_is_active_at`); the activation table is not under
`src/`.  Only the boolean verdict of this function is used. -/
def coreV20ActivationHeight : Network → Nat
  | .dash => 1987776
  | .testnet => 905100
  | .devnet => 1
  | .regtest => 1

/-- Modelled from the spec: `network.core_v20_is_active_at(height)` reports
whether Core v20 is active at the given height on this network. -/
def core_v20_is_active_at (network : Network) (height : Nat) : Bool :=
  coreV20ActivationHeight network ≤ height

/-- Modelled from the spec: `network.known_genesis_block_hash()`; the
genesis constants are not under `src/`.  Fixed distinguished byte strings
stand in for the mainnet/testnet/regtest genesis hashes, and devnets have
no statically known genesis. -/
def known_genesis_block_hash : Network → Option (List Nat)
  | .dash => some (182 :: List.replicate 31 0)
  | .testnet => some (44 :: List.replicate 31 0)
  | .devnet => none
  | .regtest => some (15 :: List.replicate 31 0)

/-! ## Error taxonomies, from `sml/error.rs` and
`sml/quorum_validation_error.rs`. -/

inductive SmlError
  | baseBlockNotGenesis (block_hash : List Nat)
  | blockHashLookupFailed (block_hash : List Nat)
  | incompleteMnListDiff
  | missingStartMasternodeList (block_hash : List Nat)
  | baseBlockHashMismatch (expected found : List Nat)
  | corruptedCodeExecution (msg : String)
  | featureNotTurnedOn (msg : String)
  deriving DecidableEq

inductive ClientDataRetrievalError
  | requiredBlockNotPresent (block_hash : List Nat)
  | coinbaseNotFoundOnBlock (block_hash : List Nat)
  deriving DecidableEq

inductive QuorumValidationError
  | requiredBlockNotPresent (block_hash : List Nat)
  | requiredBlockHeightNotPresent (height : Nat)
  | verifyingMasternodeListNotPresent (height : Nat)
  | requiredMasternodeListNotPresent (height : Nat)
  | requiredChainLockNotPresent (height : Nat) (block_hash : List Nat)
  | insufficientSigners (required found : Nat)
  | insufficientValidMembers (required found : Nat)
  | mismatchedBitsetLengths (signers_len valid_members_len : Nat)
  | invalidQuorumPublicKey
  | invalidBLSPublicKey (msg : String)
  | invalidBLSSignature (msg : String)
  | invalidQuorumSignature
  | invalidFinalSignature
  | allCommitmentAggregatedSignatureNotValid (msg : String)
  | thresholdSignatureNotValid (msg : String)
  | commitmentHashNotPresent
  | requiredSnapshotNotPresent (block_hash : List Nat)
  | smlError (e : SmlError)
  | requiredQuorumIndexNotPresent (quorum_hash : List Nat)
  | corruptedCodeExecution (msg : String)
  | expectedOnlyRotatedQuorums (quorum_hash : List Nat) (llmq_type : Nat)
  | clientDataRetrievalError (e : ClientDataRetrievalError)
  | featureNotTurnedOn (msg : String)
  deriving DecidableEq

/-! ## Verification statuses, from `sml/llmq_entry_verification.rs`. -/

inductive LLMQEntryVerificationSkipStatus
  | notMarkedForVerification
  | missedList (height : Nat)
  | unknownBlock (block_hash : List Nat)
  | otherContext (msg : String)
  deriving DecidableEq

inductive LLMQEntryVerificationStatus
  | unknown
  | verified
  | skipped (reason : LLMQEntryVerificationSkipStatus)
  | invalid (error : QuorumValidationError)
  deriving DecidableEq

/-- Whether a verification status is `Skipped(_)`. -/
def LLMQEntryVerificationStatus.isSkipped : LLMQEntryVerificationStatus → Bool
  | .skipped _ => true
  | _ => false

/-! ## Ordered maps

`BTreeMap` is embedded as an association list kept sorted (strictly
ascending) by a boolean strict-order on keys; `insert` replaces the value
when the key is already present, exactly like `BTreeMap::insert`. -/

/-- `BTreeMap::get`. -/
def alGet [DecidableEq κ] (k : κ) : List (κ × α) → Option α
  | [] => none
  | (k', v) :: r => if k = k' then some v else alGet k r

/-- `BTreeMap::insert`: keeps the list sorted by `lt`, replacing the value
of an equal key in place. -/
def alInsert (lt : κ → κ → Bool) [DecidableEq κ] (k : κ) (v : α) :
    List (κ × α) → List (κ × α)
  | [] => [(k, v)]
  | (k', v') :: r =>
    if lt k k' then (k, v) :: (k', v') :: r
    else if k = k' then (k, v) :: r
    else (k', v') :: alInsert lt k v r

/-- `BTreeMap::remove` (dropping the entry with the given key, if any). -/
def alRemove [DecidableEq κ] (k : κ) : List (κ × α) → List (κ × α)
  | [] => []
  | (k', v') :: r => if k = k' then r else (k', v') :: alRemove k r

/-- `BTreeMap::values`, in ascending key order. -/
def alValues : List (κ × α) → List α := List.map Prod.snd

/-- `BTreeMap::keys`, in ascending key order. -/
def alKeys : List (κ × α) → List κ := List.map Prod.fst

/-- Strict lexicographic order on byte strings: the `Ord` of `[u8; 32]`
byte arrays. -/
def bytesLt : List Nat → List Nat → Bool
  | [], [] => false
  | [], _ :: _ => true
  | _ :: _, [] => false
  | a :: as, b :: bs => if a < b then true else if b < a then false else bytesLt as bs

/-! ## Wire codec primitives

Modelled from the spec: `consensus::encode`'s `read_compact_size`,
`write_compact_size`, `read_fixed_bitset` and `write_fixed_bitset` are not
under `src/`.  Per the spec, compact sizes are `<0xFD` inline, `0xFD + u16`,
`0xFE + u32`, `0xFF + u64` (little-endian) and a fixed bitset of declared
length `n` occupies exactly `ceil(n/8)` bytes, least-significant bit
first within each byte. -/

/-- `write_compact_size`. -/
def writeCompactSize (n : Nat) : List Nat :=
  if n < 253 then [n]
  else if n < 65536 then 253 :: u16le n
  else if n < 4294967296 then 254 :: u32le n
  else 255 :: u64le n

/-- `read_compact_size`, returning the value and the remaining bytes. -/
def readCompactSize : List Nat → Option (Nat × List Nat)
  | [] => none
  | b :: rest =>
    if b < 253 then some (b, rest)
    else if b = 253 then
      match rest with
      | b0 :: b1 :: r => some (b0 + 256 * b1, r)
      | _ => none
    else if b = 254 then
      match rest with
      | b0 :: b1 :: b2 :: b3 :: r =>
        some (b0 + 256 * b1 + 65536 * b2 + 16777216 * b3, r)
      | _ => none
    else
      match rest with
      | b0 :: b1 :: b2 :: b3 :: b4 :: b5 :: b6 :: b7 :: r =>
        some (b0 + 256 * b1 + 65536 * b2 + 16777216 * b3 + 4294967296 * b4 +
          1099511627776 * b5 + 281474976710656 * b6 + 72057594037927936 * b7, r)
      | _ => none

/-- The byte packing a block of up to 8 bits, least-significant bit first. -/
def byteOfBits : List Bool → Nat
  | [] => 0
  | b :: t => (cond b 1 0) + 2 * byteOfBits t

/-- `write_fixed_bitset`: pack the bits into `ceil(n/8)` bytes, LSB first. -/
def packBits (l : List Bool) : List Nat := (chunkify 8 l).map byteOfBits

/-- The first `k` bits of a byte, least-significant first. -/
def bitsOfByte (b : Nat) : Nat → List Bool
  | 0 => []
  | k + 1 => decide (b % 2 = 1) :: bitsOfByte (b / 2) k

/-- Unpack `n` bits from packed bytes, LSB first within each byte. -/
def unpackBits (n : Nat) : List Nat → List Bool
  | [] => []
  | b :: rest => if n ≤ 8 then bitsOfByte b n else bitsOfByte b 8 ++ unpackBits (n - 8) rest

/-- `read_fixed_bitset` of a declared length `n`: consume exactly
`ceil(n/8)` bytes and fail on EOF. -/
def readFixedBitset (n : Nat) (bytes : List Nat) : Option (List Bool × List Nat) :=
  if (n + 7) / 8 ≤ bytes.length then
    some (unpackBits n (bytes.take ((n + 7) / 8)), bytes.drop ((n + 7) / 8))
  else none

/-- Encoding of an `i16` as its two's-complement little-endian bytes. -/
def i16le (i : Int) : List Nat := u16le (i % 65536).toNat

/-- Decoding of an `i16` from its two's-complement wire value. -/
def i16OfWire (v : Nat) : Int := if v < 32768 then (v : Int) else (v : Int) - 65536

/-! ## Quorum entries, from
`blockdata/transaction/special_transaction/quorum_commitment.rs`. -/

structure QuorumEntry where
  version : Nat
  llmq_type : Nat
  quorum_hash : List Nat
  quorum_index : Option Int
  signers : List Bool
  valid_members : List Bool
  quorum_public_key : List Nat
  quorum_vvec_hash : List Nat
  threshold_sig : List Nat
  all_commitment_aggregated_signature : List Nat
  deriving DecidableEq

namespace QuorumEntry

/-- `Encodable for QuorumEntry`: the canonical consensus encoding.  The
`quorum_index` is written only when it is present and the version is 2
or 4. -/
def consensus_encode (q : QuorumEntry) : List Nat :=
  u16le q.version ++ [q.llmq_type % 256] ++ q.quorum_hash ++
  (match q.quorum_index with
   | some i => if q.version = 2 ∨ q.version = 4 then i16le i else []
   | none => []) ++
  writeCompactSize (q.signers.length % 4294967296) ++ packBits q.signers ++
  writeCompactSize (q.valid_members.length % 4294967296) ++ packBits q.valid_members ++
  q.quorum_public_key ++ q.quorum_vvec_hash ++
  q.threshold_sig ++ q.all_commitment_aggregated_signature

/-- `QuorumEntry::commitment_data`: llmq type byte, quorum hash, compact
size of the valid-members count, valid-members bitset, quorum public key
and quorum vvec hash. -/
def commitment_data (q : QuorumEntry) : List Nat :=
  [q.llmq_type % 256] ++ q.quorum_hash ++
  writeCompactSize (q.valid_members.length % 4294967296) ++ packBits q.valid_members ++
  q.quorum_public_key ++ q.quorum_vvec_hash

/-- `QuorumEntry::calculate_commitment_hash`: `QuorumCommitmentHash` is a
`sha256d` newtype, so this is the double SHA-256 of the commitment data. -/
def calculate_commitment_hash (q : QuorumEntry) : List Nat :=
  sha256d q.commitment_data

/-- `QuorumEntry::calculate_entry_hash`: `QuorumEntryHash` is a `sha256d`
newtype, so this is the double SHA-256 of the consensus encoding. -/
def calculate_entry_hash (q : QuorumEntry) : List Nat :=
  sha256d q.consensus_encode

/-- `QuorumEntry::validate_structure`.  The popcounts mirror
`signers.iter().filter(|&&b| b).count()`; the threshold is
`llmq_type.threshold()`. -/
def validate_structure (q : QuorumEntry) : Except QuorumValidationError Unit :=
  if (q.signers.filter id).length < llmqThreshold q.llmq_type then
    .error (.insufficientSigners (llmqThreshold q.llmq_type) (q.signers.filter id).length)
  else if (q.valid_members.filter id).length < llmqThreshold q.llmq_type then
    .error (.insufficientValidMembers (llmqThreshold q.llmq_type)
      (q.valid_members.filter id).length)
  else if q.signers.length ≠ q.valid_members.length then
    .error (.mismatchedBitsetLengths q.signers.length q.valid_members.length)
  else if q.quorum_public_key = List.replicate 48 0 then
    .error .invalidQuorumPublicKey
  else if q.threshold_sig = List.replicate 96 0 then
    .error .invalidQuorumSignature
  else if q.all_commitment_aggregated_signature = List.replicate 96 0 then
    .error .invalidFinalSignature
  else .ok ()

end QuorumEntry

/-! ## Qualified quorum entries, from
`sml/quorum_entry/qualified_quorum_entry.rs`. -/

structure QualifiedQuorumEntry where
  quorum_entry : QuorumEntry
  verified : LLMQEntryVerificationStatus
  commitment_hash : List Nat
  entry_hash : List Nat
  deriving DecidableEq

/-- `impl From<QuorumEntry> for QualifiedQuorumEntry`: caches both hashes
and starts out `Skipped(NotMarkedForVerification)`. -/
def qualifiedOfQuorumEntry (q : QuorumEntry) : QualifiedQuorumEntry :=
  { quorum_entry := q
    verified := .skipped .notMarkedForVerification
    commitment_hash := q.calculate_commitment_hash
    entry_hash := q.calculate_entry_hash }

/-- `QualifiedQuorumEntry::update_quorum_status`: the value stored into
`self.verified` for a given validation result. -/
def update_quorum_status (result : Except QuorumValidationError Unit) :
    LLMQEntryVerificationStatus :=
  match result with
  | .error (.requiredBlockNotPresent block_hash) => .skipped (.unknownBlock block_hash)
  | .error (.requiredMasternodeListNotPresent height) => .skipped (.missedList height)
  | .error e => .invalid e
  | .ok _ => .verified

/-! ## Quorum modifiers, from `sml/quorum_entry/quorum_modifier_type.rs`. -/

inductive LLMQModifierType
  | preCoreV20 (llmq_type : Nat) (block_hash : List Nat)
  | coreV20 (llmq_type : Nat) (block_height : Nat) (cl_signature : List Nat)
  deriving DecidableEq

/-- `LLMQModifierType::build_llmq_hash`: `QuorumModifierHash` is a
`sha256d` newtype, so this is the double SHA-256 of the written data
(`VarInt` llmq type, then block hash, or block height and chain lock
signature). -/
def LLMQModifierType.build_llmq_hash : LLMQModifierType → List Nat
  | .preCoreV20 t block_hash => sha256d (writeCompactSize t ++ block_hash)
  | .coreV20 t block_height cl_signature =>
    sha256d (writeCompactSize t ++ u32le block_height ++ cl_signature)

/-- `LLMQModifierType::new_quorum_modifier_type`. -/
def new_quorum_modifier_type (llmq_type : Nat) (work_block_hash : List Nat)
    (work_block_height : Nat) (known_chain_locks : List (List Nat × List Nat))
    (network : Network) : Except QuorumValidationError LLMQModifierType :=
  if core_v20_is_active_at network work_block_height then
    match alGet work_block_hash known_chain_locks with
    | some best_cl_signature =>
      .ok (.coreV20 llmq_type work_block_height best_cl_signature)
    | none => .error (.requiredChainLockNotPresent work_block_height work_block_hash)
  else .ok (.preCoreV20 llmq_type work_block_hash)

/-! ## Masternode list entries, from `sml/masternode_list_entry/mod.rs`. -/

/-- Strict order on `Nat` keys as a boolean, for `BTreeMap<LLMQType, _>`. -/
def natLt (a b : Nat) : Bool := a < b

inductive MasternodeType
  | regular
  | highPerformance (platform_http_port : Nat) (platform_node_id : List Nat)
  deriving DecidableEq

/-- `Encodable for MasternodeType`: a `u16` tag (0 regular,
1 high-performance), the HP variant followed by the platform HTTP port
and the 20-byte platform node id. -/
def MasternodeType.consensus_encode : MasternodeType → List Nat
  | .regular => u16le 0
  | .highPerformance platform_http_port platform_node_id =>
    u16le 1 ++ u16le platform_http_port ++ platform_node_id

structure MasternodeListEntry where
  version : Nat
  pro_reg_tx_hash : List Nat
  confirmed_hash : Option (List Nat)
  /-- The socket address as its 16 address bytes plus the port. -/
  service_address : List Nat × Nat
  operator_public_key : List Nat
  key_id_voting : List Nat
  is_valid : Bool
  mn_type : MasternodeType
  deriving DecidableEq

/-- `Encodable for MasternodeListEntry`: a missing confirmed hash encodes
as 32 zero bytes, the socket address as 16 bytes plus big-endian port,
and the masternode type is written only for versions ≥ 2. -/
def MasternodeListEntry.consensus_encode (e : MasternodeListEntry) : List Nat :=
  u16le e.version ++ e.pro_reg_tx_hash ++
  (e.confirmed_hash.getD (List.replicate 32 0)) ++
  e.service_address.1 ++ [e.service_address.2 / 256 % 256, e.service_address.2 % 256] ++
  e.operator_public_key ++ e.key_id_voting ++ [cond e.is_valid 1 0] ++
  (if 2 ≤ e.version then e.mn_type.consensus_encode else [])

/-- `MasternodeListEntry::calculate_entry_hash`: double SHA-256 of the
consensus encoding. -/
def MasternodeListEntry.calculate_entry_hash (e : MasternodeListEntry) : List Nat :=
  sha256d e.consensus_encode

/-- `QualifiedMasternodeListEntry`, from
`sml/masternode_list_entry/qualified_masternode_list_entry.rs`. -/
structure QualifiedMasternodeListEntry where
  masternode_list_entry : MasternodeListEntry
  entry_hash : List Nat
  confirmed_hash_hashed_with_pro_reg_tx : Option (List Nat)
  deriving DecidableEq

/-- `impl From<MasternodeListEntry> for QualifiedMasternodeListEntry`:
caches the entry hash and, when the confirmed hash is present, the single
SHA-256 of `pro_reg_tx_hash || confirmed_hash`
(`ConfirmedHashHashedWithProRegTx` is a `sha256` newtype). -/
def qualifiedOfMasternodeListEntry (e : MasternodeListEntry) : QualifiedMasternodeListEntry :=
  { masternode_list_entry := e
    entry_hash := e.calculate_entry_hash
    confirmed_hash_hashed_with_pro_reg_tx :=
      e.confirmed_hash.map (fun confirmed_hash => sha256 (e.pro_reg_tx_hash ++ confirmed_hash)) }

/-! ## Masternode lists, from `sml/masternode_list/mod.rs` and
`sml/masternode_list/merkle_roots.rs`. -/

structure MasternodeList where
  block_hash : List Nat
  known_height : Nat
  masternode_merkle_root : Option (List Nat)
  llmq_merkle_root : Option (List Nat)
  /-- Keys are the byte-reversed `pro_reg_tx_hash`es, in ascending order. -/
  masternodes : List (List Nat × QualifiedMasternodeListEntry)
  quorums : List (Nat × List (List Nat × QualifiedQuorumEntry))
  deriving DecidableEq

/-- Insert into a list sorted ascending by the strict order `lt`,
placing the new element before the first element not below it (the
comparator form of `sort_by`). -/
def insertAsc (lt : α → α → Bool) (a : α) : List α → List α
  | [] => [a]
  | b :: t => if lt b a then b :: insertAsc lt a t else a :: b :: t

/-- Sort ascending by the strict order `lt` (insertion sort). -/
def sortAsc (lt : α → α → Bool) (l : List α) : List α := l.foldr (insertAsc lt) []

/-- One level of the Merkle tree: hash adjacent pairs with double
SHA-256, duplicating the last element of an odd-length level
(`pair.get(1).unwrap_or(&pair[0])`). -/
def combineLevel (level : List (List Nat)) : List (List Nat) :=
  (chunkify 2 level).map (fun pair => sha256d (pair.headD [] ++ pair.getD 1 (pair.headD [])))

/-- Iterate `combineLevel` until one hash remains (fuel-bounded loop of
`merkle_root_from_hashes`; each step at least halves a level of length
≥ 2, so `level.length` steps always suffice). -/
def merkleLevels : Nat → List (List Nat) → List (List Nat)
  | 0, level => level
  | fuel + 1, level =>
    if level.length = 1 then level else merkleLevels fuel (combineLevel level)

/-- `merkle_root_from_hashes`: `None` on empty input, else the hash left
after repeatedly combining levels. -/
def merkle_root_from_hashes (hashes : List (List Nat)) : Option (List Nat) :=
  match hashes with
  | [] => none
  | _ => some ((merkleLevels hashes.length hashes).headD [])

namespace MasternodeList

/-- `MasternodeList::hashes_for_merkle_root`: `None` at height
`u32::MAX`; otherwise the masternode map keys (the byte-reversed
`pro_reg_tx_hash`es) sorted ascending by their re-reversal, each mapped
to its entry's cached `entry_hash`. -/
def hashes_for_merkle_root (self : MasternodeList) (block_height : Nat) :
    Option (List (List Nat)) :=
  if block_height = 4294967295 then none
  else
    some ((sortAsc (fun s1 s2 => bytesLt s1.reverse s2.reverse)
        (alKeys self.masternodes)).map
      (fun hash => ((alGet hash self.masternodes).map (·.entry_hash)).getD []))

/-- `MasternodeList::hashes_for_quorum_merkle_root`: every quorum's
cached `entry_hash` across all buckets, sorted ascending by raw bytes. -/
def hashes_for_quorum_merkle_root (self : MasternodeList) : List (List Nat) :=
  sortAsc bytesLt
    (((self.quorums.map (fun q_map => alValues q_map.2)).flatten).map (·.entry_hash))

/-- `MasternodeList::calculate_masternodes_merkle_root`. -/
def calculate_masternodes_merkle_root (self : MasternodeList) (block_height : Nat) :
    Option (List Nat) :=
  (self.hashes_for_merkle_root block_height).bind merkle_root_from_hashes

/-- `MasternodeList::calculate_llmq_merkle_root`. -/
def calculate_llmq_merkle_root (self : MasternodeList) : Option (List Nat) :=
  merkle_root_from_hashes self.hashes_for_quorum_merkle_root

/-- `MasternodeList::new`: tags the maps with the block hash and height
and memoizes the merkle roots (the quorum root only when quorums are
active). -/
def new (masternodes : List (List Nat × QualifiedMasternodeListEntry))
    (quorums : List (Nat × List (List Nat × QualifiedQuorumEntry)))
    (block_hash : List Nat) (block_height : Nat) (quorums_active : Bool) :
    MasternodeList :=
  let base : MasternodeList :=
    { block_hash
      known_height := block_height
      masternode_merkle_root := none
      llmq_merkle_root := none
      masternodes
      quorums }
  { base with
    masternode_merkle_root := base.calculate_masternodes_merkle_root block_height
    llmq_merkle_root := if quorums_active then base.calculate_llmq_merkle_root else none }

end MasternodeList

/-! ## Masternode list diffs, from `network/message_sml.rs`.

The `coinbase_tx` field (a full transaction) is not consumed by any of
the embedded operations and is omitted from the embedding; deleted
quorums are `(llmq_type, quorum_hash)` pairs. -/

structure MnListDiff where
  version : Nat
  base_block_hash : List Nat
  block_hash : List Nat
  total_transactions : Nat
  merkle_hashes : List (List Nat)
  merkle_flags : List Nat
  deleted_masternodes : List (List Nat)
  new_masternodes : List MasternodeListEntry
  deleted_quorums : List (Nat × List Nat)
  new_quorums : List QuorumEntry
  quorums_chainlock_signatures : List (List Nat)
  deriving DecidableEq

/-- The masternode-map update of `apply_diff`: remove every deleted
masternode under its byte-reversed hash, then insert or replace every new
masternode under its byte-reversed `pro_reg_tx_hash`, converted through
the `From` conversion. -/
def updated_masternodes (mns : List (List Nat × QualifiedMasternodeListEntry))
    (diff : MnListDiff) : List (List Nat × QualifiedMasternodeListEntry) :=
  diff.new_masternodes.foldl
    (fun m new_mn =>
      alInsert bytesLt new_mn.pro_reg_tx_hash.reverse
        (qualifiedOfMasternodeListEntry new_mn) m)
    (diff.deleted_masternodes.foldl
      (fun m pro_tx_hash => alRemove pro_tx_hash.reverse m)
      mns)

/-- The quorum-map update of `apply_diff`: remove each deleted quorum
from its `llmq_type` bucket (dropping the bucket if it becomes empty),
then upsert each new quorum into `quorums[llmq_type][quorum_hash]`. -/
def updated_quorums (qs : List (Nat × List (List Nat × QualifiedQuorumEntry)))
    (diff : MnListDiff) : List (Nat × List (List Nat × QualifiedQuorumEntry)) :=
  diff.new_quorums.foldl
    (fun qs new_quorum =>
      alInsert natLt new_quorum.llmq_type
        (alInsert bytesLt new_quorum.quorum_hash (qualifiedOfQuorumEntry new_quorum)
          ((alGet new_quorum.llmq_type qs).getD []))
        qs)
    (diff.deleted_quorums.foldl
      (fun qs deleted_quorum =>
        match alGet deleted_quorum.1 qs with
        | none => qs
        | some quorum_map =>
          if alRemove deleted_quorum.2 quorum_map = [] then alRemove deleted_quorum.1 qs
          else alInsert natLt deleted_quorum.1 (alRemove deleted_quorum.2 quorum_map) qs)
      qs)

/-- `MasternodeList::apply_diff`, from
`sml/masternode_list/apply_diff.rs`: reject a base-hash mismatch, then
apply the masternode and quorum updates and build the new list at
`diff.block_hash` and `diff_end_height` with quorums active. -/
def MasternodeList.apply_diff (self : MasternodeList) (diff : MnListDiff)
    (diff_end_height : Nat) : Except SmlError MasternodeList :=
  if self.block_hash ≠ diff.base_block_hash then
    .error (.baseBlockHashMismatch self.block_hash diff.base_block_hash)
  else
    .ok (MasternodeList.new (updated_masternodes self.masternodes diff)
      (updated_quorums self.quorums diff) diff.block_hash diff_end_height true)

/-- `TryFromWithBlockHashLookup<MnListDiff> for MasternodeList`, from
`sml/masternode_list/from_diff.rs`: check the base block is the known
genesis (when the network defines one), look up the height of the diff's
block hash, reject incomplete diffs, then build the maps; every new
quorum is stored with freshly computed hashes and status
`Skipped(NotMarkedForVerification)` (the record the source constructs
inline coincides with the `From<QuorumEntry>` conversion), and the
masternode merkle root is taken from the first merkle hash. -/
def try_from_with_block_hash_lookup (diff : MnListDiff)
    (block_hash_lookup : List Nat → Option Nat) (network : Network) :
    Except SmlError MasternodeList :=
  if (known_genesis_block_hash network).isSome ∧
      diff.base_block_hash ≠ (known_genesis_block_hash network).getD [] then
    .error (.baseBlockNotGenesis diff.base_block_hash)
  else
    match block_hash_lookup diff.block_hash with
    | none => .error (.blockHashLookupFailed diff.block_hash)
    | some known_height =>
      if diff.merkle_hashes = [] ∨ diff.new_masternodes = [] then
        .error .incompleteMnListDiff
      else
        .ok
          { block_hash := diff.block_hash
            known_height
            masternode_merkle_root := diff.merkle_hashes.head?
            llmq_merkle_root := none
            masternodes :=
              diff.new_masternodes.foldl
                (fun m entry =>
                  alInsert bytesLt entry.pro_reg_tx_hash.reverse
                    (qualifiedOfMasternodeListEntry entry) m)
                []
            quorums :=
              diff.new_quorums.foldl
                (fun map quorum =>
                  alInsert natLt quorum.llmq_type
                    (alInsert bytesLt quorum.quorum_hash (qualifiedOfQuorumEntry quorum)
                      ((alGet quorum.llmq_type map).getD []))
                    map)
                [] }

/-! ## Quorum member scores, from `sml/masternode_list_entry/score.rs`,
`sml/masternode_list/scores_for_quorum.rs` and `hash_types.rs`. -/

/-- The `Ord` of `ScoreHash` in `hash_types.rs`: both byte arrays are
reversed and then compared lexicographically. -/
def scoreHashLt (s1 s2 : List Nat) : Bool := bytesLt s1.reverse s2.reverse

/-- `ScoreHash::create_score`: `ScoreHash` is a single-`sha256` newtype,
so the score is the (single) SHA-256 of the optional
`confirmed_hash_hashed_with_pro_reg_tx` bytes followed by the modifier
bytes. -/
def create_score (confirmed_hash_hashed_with_pro_reg_tx : Option (List Nat))
    (modifier : List Nat) : List Nat :=
  sha256 (confirmed_hash_hashed_with_pro_reg_tx.getD [] ++ modifier)

/-- `QualifiedMasternodeListEntry::score`: `None` when the entry is not
valid or carries no cached confirmed-hash-with-pro-reg-tx, else the
created score. -/
def QualifiedMasternodeListEntry.score (self : QualifiedMasternodeListEntry)
    (modifier : List Nat) : Option (List Nat) :=
  if ¬ self.masternode_list_entry.is_valid ∨
      self.confirmed_hash_hashed_with_pro_reg_tx = none then none
  else some (create_score self.confirmed_hash_hashed_with_pro_reg_tx modifier)

/-- The `matches!(mn_type, MasternodeType::HighPerformance { .. })` test
used by `scores_for_quorum_for_masternodes`. -/
def MasternodeType.isHighPerformance : MasternodeType → Bool
  | .highPerformance _ _ => true
  | .regular => false

/-- `MasternodeList::scores_for_quorum_for_masternodes`: keep the entries
that pass the platform filter and have a score, and collect
`(score, entry)` into a `BTreeMap<ScoreHash, _>` keyed by the score. -/
def scores_for_quorum_for_masternodes (entries : List QualifiedMasternodeListEntry)
    (quorum_modifier : List Nat) (hpmn_only : Bool) :
    List (List Nat × QualifiedMasternodeListEntry) :=
  entries.foldl
    (fun m entry =>
      if ¬ hpmn_only ∨ entry.masternode_list_entry.mn_type.isHighPerformance then
        match entry.score quorum_modifier with
        | some score => alInsert scoreHashLt score entry m
        | none => m
      else m)
    []

/-- `MasternodeList::scores_for_quorum`. -/
def MasternodeList.scores_for_quorum (self : MasternodeList)
    (quorum_modifier : List Nat) (hpmn_only : Bool) :
    List (List Nat × QualifiedMasternodeListEntry) :=
  scores_for_quorum_for_masternodes (alValues self.masternodes) quorum_modifier hpmn_only

/-- `MasternodeList::valid_masternodes_for_quorum`: the score map's
values in descending key order, truncated to the quorum size; the
platform filter is on exactly when the quorum's LLMQ type is the
network's platform type. -/
def MasternodeList.valid_masternodes_for_quorum (self : MasternodeList)
    (quorum : QualifiedQuorumEntry) (quorum_modifier : LLMQModifierType)
    (network : Network) : List QualifiedMasternodeListEntry :=
  (alValues (self.scores_for_quorum quorum_modifier.build_llmq_hash
      (decide (quorum.quorum_entry.llmq_type = platform_type network)))).reverse.take
    (llmqSize quorum.quorum_entry.llmq_type)

/-! ## The masternode list engine, from
`sml/masternode_list_engine/non_rotated_quorum_construction.rs`.

Only the engine fields consumed by the embedded operations are carried:
block heights by block hash, masternode lists by height, known chain
lock signatures by block hash, and the network. -/

structure MasternodeListEngine where
  block_heights : List (List Nat × Nat)
  masternode_lists : List (Nat × MasternodeList)
  known_chain_locks : List (List Nat × List Nat)
  network : Network
  deriving DecidableEq

/-- `masternode_list_and_height_for_block_hash_8_blocks_ago`: look up the
height of the block hash, then the masternode list stored at that height
minus 8 (`saturating_sub`, which is `Nat` subtraction). -/
def MasternodeListEngine.masternode_list_and_height_for_block_hash_8_blocks_ago
    (self : MasternodeListEngine) (block_hash : List Nat) :
    Except QuorumValidationError (MasternodeList × Nat) :=
  match alGet block_hash self.block_heights with
  | some height =>
    match alGet (height - 8) self.masternode_lists with
    | some masternode_list => .ok (masternode_list, height - 8)
    | none => .error (.requiredMasternodeListNotPresent (height - 8))
  | none => .error (.requiredBlockNotPresent block_hash)

/-- `find_non_rotated_masternodes_for_quorum`: resolve the masternode
list 8 blocks before the quorum hash, build the quorum modifier for its
block hash and height, and take the valid masternodes for the quorum. -/
def MasternodeListEngine.find_non_rotated_masternodes_for_quorum
    (self : MasternodeListEngine) (quorum : QualifiedQuorumEntry) :
    Except QuorumValidationError (List QualifiedMasternodeListEntry) :=
  match self.masternode_list_and_height_for_block_hash_8_blocks_ago
      quorum.quorum_entry.quorum_hash with
  | .error e => .error e
  | .ok (masternode_list, known_block_height) =>
    match new_quorum_modifier_type quorum.quorum_entry.llmq_type
        masternode_list.block_hash known_block_height self.known_chain_locks
        self.network with
    | .error e => .error e
    | .ok quorum_modifier_type =>
      .ok (masternode_list.valid_masternodes_for_quorum quorum quorum_modifier_type
        self.network)

/-! ## Snapshot skip lists, from
`sml/masternode_list_engine/rotated_quorum_construction.rs`
(`apply_skip_strategy_of_type`, `MNSkipListMode::SkipFirst` branch). -/

/-- The `processed_skip_list` of the `SkipFirst` branch: `s` is mapped
through a mutable `first_entry_index` that starts at `0`, is set to `s`
while it is still `0`, and is added to every later entry. -/
def processedSkipList (skip_list : List Nat) : List Nat :=
  (skip_list.foldl
    (fun acc s =>
      if acc.1 = 0 then (s, acc.2 ++ [s]) else (acc.1, acc.2 ++ [acc.1 + s]))
    (0, [])).2

/-- Modelled from the spec: the running prefix sums of the skip list (the
first entry taken as-is, each later absolute index accumulating every
preceding relative entry), stated for comparison with
`processedSkipList`. -/
def specPrefixSumSkipList (skip_list : List Nat) : List Nat :=
  (skip_list.foldl (fun acc s => (acc.1 + s, acc.2 ++ [acc.1 + s])) (0, [])).2

/-- One quarter of the `SkipFirst` walk (the inner `while` loop):
starting from walk position `idx` and skip position `skip_idx`, push
`mns[idx]` unless `idx` is the next processed skip index, stepping `idx`
to `(idx + 1) % mns.length`, until the quarter has `quarter_size`
entries.  The loop indexes `mns[idx]` and reduces modulo `mns.length`,
which panics on an empty list; the embedding returns `none` then (and
when the fuel, always sufficient at `quarter_size + processed.length + 1`,
runs out). -/
def skipFirstQuarter (mns : List QualifiedMasternodeListEntry)
    (processed : List Nat) (quarter_size : Nat) :
    Nat → Nat → Nat → List QualifiedMasternodeListEntry →
    Option (List QualifiedMasternodeListEntry × Nat × Nat)
  | 0, _, _, _ => none
  | fuel + 1, idx, skip_idx, quarter =>
    if quarter.length < quarter_size then
      if mns.length = 0 then none
      else if processed.get? skip_idx = some idx then
        skipFirstQuarter mns processed quarter_size fuel ((idx + 1) % mns.length)
          (skip_idx + 1) quarter
      else
        match mns.get? idx with
        | none => none
        | some e =>
          skipFirstQuarter mns processed quarter_size fuel ((idx + 1) % mns.length)
            skip_idx (quarter ++ [e])
    else some (quarter, idx, skip_idx)

/-- The `(0..quorum_count).map(..)` of the `SkipFirst` branch: build one
quarter per quorum, threading the walk and skip positions. -/
def skipFirstQuarters (mns : List QualifiedMasternodeListEntry)
    (processed : List Nat) (quarter_size : Nat) :
    Nat → Nat → Nat → Option (List (List QualifiedMasternodeListEntry))
  | 0, _, _ => some []
  | count + 1, idx, skip_idx =>
    match skipFirstQuarter mns processed quarter_size
        (quarter_size + processed.length + 1) idx skip_idx [] with
    | none => none
    | some (quarter, idx', skip_idx') =>
      (skipFirstQuarters mns processed quarter_size count idx' skip_idx').map
        (quarter :: ·)

/-- The `SkipFirst` branch of `apply_skip_strategy_of_type`: both input
halves are score-sorted (platform filter off), the combined list is the
descending unused values followed by the descending used values, and the
walk starts at position `0` with no skips consumed. -/
def apply_skip_strategy_skip_first (used_at_h_masternodes : List QualifiedMasternodeListEntry)
    (unused_at_h_masternodes : List QualifiedMasternodeListEntry)
    (quorum_modifier : List Nat) (quorum_count quarter_size : Nat)
    (skip_list : List Nat) : Option (List (List QualifiedMasternodeListEntry)) :=
  skipFirstQuarters
    ((alValues (scores_for_quorum_for_masternodes unused_at_h_masternodes
        quorum_modifier false)).reverse ++
      (alValues (scores_for_quorum_for_masternodes used_at_h_masternodes
        quorum_modifier false)).reverse)
    (processedSkipList skip_list) quarter_size quorum_count 0 0

/-! ## Decoding of quorum entries

The byte-level readers mirror `consensus_decode` of the primitive types:
each takes the input bytes and returns the decoded value together with
the bytes not yet consumed, or `none` on unexpected EOF. -/

/-- Read one byte (`u8::consensus_decode`). -/
def readByte : List Nat → Option (Nat × List Nat)
  | [] => none
  | b :: r => some (b, r)

/-- Read a little-endian `u16` (`u16::consensus_decode`). -/
def readU16 : List Nat → Option (Nat × List Nat)
  | b0 :: b1 :: r => some (b0 + 256 * b1, r)
  | _ => none

/-- Read a fixed number of raw bytes (fixed byte arrays such as hashes,
BLS public keys and BLS signatures). -/
def readBytes (n : Nat) (l : List Nat) : Option (List Nat × List Nat) :=
  if n ≤ l.length then some (l.take n, l.drop n) else none

/-- Modelled from the spec: `LLMQType::consensus_decode` accepts exactly
the documented enum range (the `LLMQType` module is not under `src/`);
the named variants occupy 1–6 and 100–107, with 0 for `LlmqtypeUnknown`. -/
def llmqTypeValid (t : Nat) : Bool := t ≤ 6 || (100 ≤ t && t ≤ 107)

namespace QuorumEntry

/-- The tail of `Decodable for QuorumEntry` once the version, llmq type
and quorum hash have been read: optional quorum index (versions 2 and 4),
the two counted bitsets, and the fixed-width BLS elements. -/
def decode_tail (version llmq_type : Nat) (quorum_hash : List Nat) (r : List Nat) :
    Option (QuorumEntry × List Nat) :=
  match (if version = 2 ∨ version = 4 then
            match readU16 r with
            | none => none
            | some (v, r') => some (some (i16OfWire v), r')
          else some (none, r)) with
  | none => none
  | some (quorum_index, r) =>
    match readCompactSize r with
    | none => none
    | some (signers_count, r) =>
      match readFixedBitset signers_count r with
      | none => none
      | some (signers, r) =>
        match readCompactSize r with
        | none => none
        | some (valid_members_count, r) =>
          match readFixedBitset valid_members_count r with
          | none => none
          | some (valid_members, r) =>
            match readBytes 48 r with
            | none => none
            | some (quorum_public_key, r) =>
              match readBytes 32 r with
              | none => none
              | some (quorum_vvec_hash, r) =>
                match readBytes 96 r with
                | none => none
                | some (threshold_sig, r) =>
                  match readBytes 96 r with
                  | none => none
                  | some (all_sig, r) =>
                    some
                      ({ version
                         llmq_type
                         quorum_hash
                         quorum_index
                         signers
                         valid_members
                         quorum_public_key
                         quorum_vvec_hash
                         threshold_sig
                         all_commitment_aggregated_signature := all_sig }, r)

/-- `Decodable for QuorumEntry`: the `quorum_index` is read exactly when
the version is 2 or 4. -/
def consensus_decode (bytes : List Nat) : Option (QuorumEntry × List Nat) :=
  match readU16 bytes with
  | none => none
  | some (version, r) =>
    match readByte r with
    | none => none
    | some (llmq_type, r) =>
      if llmqTypeValid llmq_type then
        match readBytes 32 r with
        | none => none
        | some (quorum_hash, r) => decode_tail version llmq_type quorum_hash r
      else none

end QuorumEntry

/-- A concrete quorum entry whose `quorum_index` is present although its
version is neither 2 nor 4: the encoder silently drops the index, so the
decode of the encode differs from the original entry. -/
def c4Entry : QuorumEntry :=
  { version := 1
    llmq_type := 1
    quorum_hash := List.replicate 32 0
    quorum_index := some 7
    signers := [true]
    valid_members := [true]
    quorum_public_key := List.replicate 48 0
    quorum_vvec_hash := List.replicate 32 0
    threshold_sig := List.replicate 96 0
    all_commitment_aggregated_signature := List.replicate 96 0 }

/-- A concrete version-2 quorum entry whose `quorum_index` is present, as
the wire format demands for versions 2 and 4. -/
def c4Good : QuorumEntry :=
  { version := 2
    llmq_type := 1
    quorum_hash := List.replicate 32 9
    quorum_index := some (-3)
    signers := [true, false, true]
    valid_members := [true, true, false]
    quorum_public_key := List.replicate 48 4
    quorum_vvec_hash := List.replicate 32 5
    threshold_sig := List.replicate 96 6
    all_commitment_aggregated_signature := List.replicate 96 7 }

/-- A concrete quorum entry used to exhibit that the commitment hash is a
double, not single, SHA-256. -/
def c1Entry : QuorumEntry :=
  { version := 1
    llmq_type := 1
    quorum_hash := List.replicate 32 0
    quorum_index := none
    signers := [true, true, false]
    valid_members := [true, true, true]
    quorum_public_key := List.replicate 48 1
    quorum_vvec_hash := List.replicate 32 2
    threshold_sig := List.replicate 96 3
    all_commitment_aggregated_signature := List.replicate 96 3 }

/-- The same entry with a different signers bitset (and nothing else
changed). -/
def c1Entry' : QuorumEntry :=
  { c1Entry with signers := [false, false, true] }

/-- A concrete quorum entry violating two structural invariants at once:
its signers popcount (0) is below the threshold of `Llmqtype50_60` (30)
and its bitset lengths differ (0 vs 30). -/
def c6Entry : QuorumEntry :=
  { version := 1
    llmq_type := llmqtype50_60
    quorum_hash := List.replicate 32 0
    quorum_index := none
    signers := []
    valid_members := List.replicate 30 true
    quorum_public_key := List.replicate 48 1
    quorum_vvec_hash := List.replicate 32 0
    threshold_sig := List.replicate 96 1
    all_commitment_aggregated_signature := List.replicate 96 1 }

/-- A concrete quorum entry carried by the C10 ingestion diff. -/
def c10Q : QuorumEntry :=
  { version := 1
    llmq_type := 1
    quorum_hash := List.replicate 32 8
    quorum_index := none
    signers := [true, true]
    valid_members := [true, true]
    quorum_public_key := List.replicate 48 1
    quorum_vvec_hash := List.replicate 32 2
    threshold_sig := List.replicate 96 3
    all_commitment_aggregated_signature := List.replicate 96 3 }

/-- A concrete masternode entry carried by the C10 ingestion diff. -/
def c10MN : MasternodeListEntry :=
  { version := 1
    pro_reg_tx_hash := List.replicate 32 6
    confirmed_hash := none
    service_address := (List.replicate 16 0, 1)
    operator_public_key := List.replicate 48 1
    key_id_voting := List.replicate 20 2
    is_valid := true
    mn_type := .regular }

/-- A concrete one-masternode, one-quorum diff fed to `from_diff`. -/
def c10Diff : MnListDiff :=
  { version := 1
    base_block_hash := List.replicate 32 1
    block_hash := List.replicate 32 2
    total_transactions := 1
    merkle_hashes := [List.replicate 32 3]
    merkle_flags := []
    deleted_masternodes := []
    new_masternodes := [c10MN]
    deleted_quorums := []
    new_quorums := [c10Q]
    quorums_chainlock_signatures := [] }

/-- The qualified quorum entry that ingesting `c10Diff` stores. -/
def c10QQ : QualifiedQuorumEntry := qualifiedOfQuorumEntry c10Q

/-- The masternode list that ingesting `c10Diff` on devnet produces. -/
def c10L : MasternodeList :=
  { block_hash := c10Diff.block_hash
    known_height := 10
    masternode_merkle_root := some (List.replicate 32 3)
    llmq_merkle_root := none
    masternodes := [(c10MN.pro_reg_tx_hash.reverse, qualifiedOfMasternodeListEntry c10MN)]
    quorums := [(c10Q.llmq_type, [(c10Q.quorum_hash, c10QQ)])] }

/-- A concrete masternode entry inserted by the C3 diff. -/
def c3MN : MasternodeListEntry :=
  { version := 2
    pro_reg_tx_hash := (List.range 32).map (fun i => i + 1)
    confirmed_hash := some (List.replicate 32 5)
    service_address := (List.replicate 16 0, 19999)
    operator_public_key := List.replicate 48 7
    key_id_voting := List.replicate 20 8
    is_valid := true
    mn_type := .highPerformance 443 (List.replicate 20 9) }

/-- A concrete base list for the C3 diff application. -/
def c3L : MasternodeList :=
  { block_hash := List.replicate 32 1
    known_height := 0
    masternode_merkle_root := none
    llmq_merkle_root := none
    masternodes := []
    quorums := [] }

/-- A concrete diff whose base matches `c3L`, deleting one absent
masternode and inserting `c3MN`. -/
def c3D : MnListDiff :=
  { version := 1
    base_block_hash := List.replicate 32 1
    block_hash := List.replicate 32 2
    total_transactions := 0
    merkle_hashes := []
    merkle_flags := []
    deleted_masternodes := [List.replicate 32 9]
    new_masternodes := [c3MN]
    deleted_quorums := []
    new_quorums := []
    quorums_chainlock_signatures := [] }

/-- Modelled from the spec's words for comparison with the source: the
masternode-root leaves "ordered by the byte-reversed `pro_reg_tx_hash`
ascending" — sort the byte-reversed hashes ascending and look each up in
the map. -/
def spec_masternode_root_leaves (L : MasternodeList) : List (List Nat) :=
  (sortAsc bytesLt
      ((alValues L.masternodes).map
        (fun e => e.masternode_list_entry.pro_reg_tx_hash.reverse))).map
    (fun rk => ((alGet rk L.masternodes).map (·.entry_hash)).getD [])

/-- First masternode entry of the C9 two-entry list: raw-lexicographically
smallest `pro_reg_tx_hash`, but byte-reversed largest. -/
def c9E1 : QualifiedMasternodeListEntry :=
  { masternode_list_entry :=
      { version := 1
        pro_reg_tx_hash := List.replicate 31 0 ++ [1]
        confirmed_hash := none
        service_address := (List.replicate 16 0, 1)
        operator_public_key := List.replicate 48 1
        key_id_voting := List.replicate 20 1
        is_valid := true
        mn_type := .regular }
    entry_hash := List.replicate 32 11
    confirmed_hash_hashed_with_pro_reg_tx := none }

/-- Second masternode entry of the C9 two-entry list: raw-lexicographically
largest `pro_reg_tx_hash`, but byte-reversed smallest. -/
def c9E2 : QualifiedMasternodeListEntry :=
  { masternode_list_entry :=
      { version := 1
        pro_reg_tx_hash := 1 :: List.replicate 31 0
        confirmed_hash := none
        service_address := (List.replicate 16 0, 2)
        operator_public_key := List.replicate 48 2
        key_id_voting := List.replicate 20 2
        is_valid := true
        mn_type := .regular }
    entry_hash := List.replicate 32 22
    confirmed_hash_hashed_with_pro_reg_tx := none }

/-- A two-masternode list on which the raw and byte-reversed orderings of
`pro_reg_tx_hash` disagree (keys stored byte-reversed, ascending). -/
def c9L : MasternodeList :=
  { block_hash := List.replicate 32 1
    known_height := 7
    masternode_merkle_root := none
    llmq_merkle_root := none
    masternodes :=
      [(c9E2.masternode_list_entry.pro_reg_tx_hash.reverse, c9E2),
       (c9E1.masternode_list_entry.pro_reg_tx_hash.reverse, c9E1)]
    quorums := [] }

/-- A small masternode list entry with distinguishing byte `k`, used by
the C7 engine and the C8 skip walks. -/
def c7MN (k : Nat) (valid : Bool) : MasternodeListEntry :=
  { version := 1
    pro_reg_tx_hash := [k]
    confirmed_hash := some [k]
    service_address := ([], 0)
    operator_public_key := []
    key_id_voting := []
    is_valid := valid
    mn_type := .regular }

/-- The qualified form of `c7MN k valid`, with literal caches. -/
def c7QMN (k : Nat) (valid : Bool) : QualifiedMasternodeListEntry :=
  { masternode_list_entry := c7MN k valid
    entry_hash := [k]
    confirmed_hash_hashed_with_pro_reg_tx := some [k] }

/-- A five-masternode list (one entry invalid) used by the C7 witness. -/
def c7L : MasternodeList :=
  { block_hash := [7]
    known_height := 2
    masternode_merkle_root := none
    llmq_merkle_root := none
    masternodes :=
      [([1], c7QMN 1 true), ([2], c7QMN 2 true), ([3], c7QMN 3 false),
       ([4], c7QMN 4 true), ([5], c7QMN 5 true)]
    quorums := [] }

/-- A qualified quorum entry of the test LLMQ type at quorum hash `[9]`,
used by the C7 witness. -/
def c7Quorum : QualifiedQuorumEntry :=
  { quorum_entry :=
      { version := 1
        llmq_type := llmqtypeTest
        quorum_hash := [9]
        quorum_index := none
        signers := []
        valid_members := []
        quorum_public_key := []
        quorum_vvec_hash := []
        threshold_sig := []
        all_commitment_aggregated_signature := [] }
    verified := .skipped .notMarkedForVerification
    commitment_hash := []
    entry_hash := [] }

/-- An engine on mainnet that knows the quorum hash `[9]` at height 10 and
stores `c7L` at height 2 (Core v20 is not yet active at height 2 on
mainnet, so the modifier is PreCoreV20). -/
def c7Engine : MasternodeListEngine :=
  { block_heights := [([9], 10)]
    masternode_lists := [(2, c7L)]
    known_chain_locks := []
    network := .dash }

/-- The quorum modifier the C7 engine resolves for `c7Quorum`. -/
def c7Mod : LLMQModifierType := .preCoreV20 llmqtypeTest [7]

/-- Seven valid masternode entries for the C8 skip-list walks. -/
def c8Mns : List QualifiedMasternodeListEntry :=
  [c7QMN 10 true, c7QMN 11 true, c7QMN 12 true, c7QMN 13 true,
   c7QMN 14 true, c7QMN 15 true, c7QMN 16 true]

/-! # Theorems -/

/-! ## Claim C1: the commitment hash -/

/-- C1 (counterexample): `calculate_commitment_hash` is not the single
SHA-256 of `llmq_type || quorum_hash || compact_size(|valid_members|) ||
bitset(valid_members) || quorum_public_key || quorum_vvec_hash`: at this
concrete entry the two digests differ (the code hashes with the
`sha256d`-backed `QuorumCommitmentHash`). -/
theorem c1_single_sha_counterexample :
    c1Entry.calculate_commitment_hash ≠
      sha256 ([c1Entry.llmq_type % 256] ++ c1Entry.quorum_hash ++
        writeCompactSize c1Entry.valid_members.length ++ packBits c1Entry.valid_members ++
        c1Entry.quorum_public_key ++ c1Entry.quorum_vvec_hash) := by
  decide

/-- C1 (amended): for every `QuorumEntry`, `calculate_commitment_hash` is
the **double** SHA-256 of the concatenation `llmq_type || quorum_hash ||
compact_size(|valid_members|) || bitset(valid_members) ||
quorum_public_key || quorum_vvec_hash`, and the signers bitset does not
influence the result: two entries agreeing on those six commitment fields
(and possibly differing in `signers` or any other field) have equal
commitment hashes. -/
theorem c1_commitment_hash (q q' : QuorumEntry)
    (hlen : q.valid_members.length < 4294967296)
    (h1 : q'.llmq_type = q.llmq_type) (h2 : q'.quorum_hash = q.quorum_hash)
    (h3 : q'.valid_members = q.valid_members)
    (h4 : q'.quorum_public_key = q.quorum_public_key)
    (h5 : q'.quorum_vvec_hash = q.quorum_vvec_hash) :
    q.calculate_commitment_hash =
      sha256 (sha256 ([q.llmq_type % 256] ++ q.quorum_hash ++
        writeCompactSize q.valid_members.length ++ packBits q.valid_members ++
        q.quorum_public_key ++ q.quorum_vvec_hash)) ∧
    q'.calculate_commitment_hash = q.calculate_commitment_hash := by
  constructor
  · simp only [QuorumEntry.calculate_commitment_hash, QuorumEntry.commitment_data, sha256d,
      Nat.mod_eq_of_lt hlen]
  · unfold QuorumEntry.calculate_commitment_hash QuorumEntry.commitment_data sha256d
    rw [h1, h2, h3, h4, h5]

/-- C1 (witness): the amended theorem applied to the two concrete entries
that differ only in their signers bitset. -/
theorem c1_commitment_hash_witness :
    c1Entry.calculate_commitment_hash =
      sha256 (sha256 ([c1Entry.llmq_type % 256] ++ c1Entry.quorum_hash ++
        writeCompactSize c1Entry.valid_members.length ++ packBits c1Entry.valid_members ++
        c1Entry.quorum_public_key ++ c1Entry.quorum_vvec_hash)) ∧
    c1Entry'.calculate_commitment_hash = c1Entry.calculate_commitment_hash :=
  c1_commitment_hash c1Entry c1Entry' (by decide) rfl rfl rfl rfl rfl

/-! ## Claim C2: status updates from validation results -/

/-- C2 (counterexample): a validation failure for a missing required
ChainLock signature is stored as `Invalid`, not `Skipped`: only missing
blocks and missing masternode lists are skipped. -/
theorem c2_chainlock_not_skipped_counterexample :
    update_quorum_status
        (.error (.requiredChainLockNotPresent 100 (List.replicate 32 0))) =
      .invalid (.requiredChainLockNotPresent 100 (List.replicate 32 0)) ∧
    (update_quorum_status
        (.error (.requiredChainLockNotPresent 100 (List.replicate 32 0)))).isSkipped
      = false := by
  decide

/-- C2 (amended): `update_quorum_status` stores
`Skipped(UnknownBlock)` for a missing required block,
`Skipped(MissedList)` for a missing required masternode list,
`Verified` for `Ok`, and `Invalid(e)` for **every** other error — a
missing required ChainLock signature included. -/
theorem c2_update_quorum_status :
    (∀ block_hash, update_quorum_status (.error (.requiredBlockNotPresent block_hash)) =
      .skipped (.unknownBlock block_hash)) ∧
    (∀ height, update_quorum_status (.error (.requiredMasternodeListNotPresent height)) =
      .skipped (.missedList height)) ∧
    (∀ e : QuorumValidationError,
      (∀ block_hash, e ≠ .requiredBlockNotPresent block_hash) →
      (∀ height, e ≠ .requiredMasternodeListNotPresent height) →
      update_quorum_status (.error e) = .invalid e) ∧
    update_quorum_status (.ok ()) = .verified := by
  refine ⟨fun _ => rfl, fun _ => rfl, ?_, rfl⟩
  intro e hb hl
  cases e with
  | requiredBlockNotPresent bh => exact absurd rfl (hb bh)
  | requiredMasternodeListNotPresent h => exact absurd rfl (hl h)
  | _ => rfl

/-- C2 (witness): the amended theorem applied to the missing-ChainLock
error, whose status is `Invalid`. -/
theorem c2_update_quorum_status_witness :
    update_quorum_status (.error (.requiredChainLockNotPresent 7 (List.replicate 32 1))) =
      .invalid (.requiredChainLockNotPresent 7 (List.replicate 32 1)) :=
  c2_update_quorum_status.2.2.1 _
    (fun _ h => QuorumValidationError.noConfusion h)
    (fun _ h => QuorumValidationError.noConfusion h)

/-! ## Claim C5: quorum modifier construction -/

/-- C5 (counterexample): the PreCoreV20 modifier hash is not the single
SHA-256 of `varint(llmq_type) || quorum_hash_bytes`: at this concrete
input the two digests differ (the code hashes with the `sha256d`-backed
`QuorumModifierHash`). -/
theorem c5_single_sha_counterexample :
    LLMQModifierType.build_llmq_hash (.preCoreV20 1 (List.replicate 32 5)) ≠
      sha256 (writeCompactSize 1 ++ List.replicate 32 5) := by
  decide

/-- C5 (amended): `new_quorum_modifier_type` returns the CoreV20 modifier
iff the network reports Core v20 active at the work height, fails with
`RequiredChainLockNotPresent` exactly when Core v20 is active and no
ChainLock signature is known for the work block hash, and
`build_llmq_hash` is the **double** SHA-256 of
`varint(llmq_type) || quorum_hash_bytes` (PreCoreV20) resp.
`varint(llmq_type) || u32_le(work_block_height) || chainlock_sig_bytes`
(CoreV20). -/
theorem c5_quorum_modifier (t : Nat) (bh : List Nat) (h : Nat)
    (m : List (List Nat × List Nat)) (net : Network) :
    (core_v20_is_active_at net h = true → ∀ sig, alGet bh m = some sig →
      new_quorum_modifier_type t bh h m net = .ok (.coreV20 t h sig)) ∧
    (core_v20_is_active_at net h = true → alGet bh m = none →
      new_quorum_modifier_type t bh h m net =
        .error (.requiredChainLockNotPresent h bh)) ∧
    (core_v20_is_active_at net h = false →
      new_quorum_modifier_type t bh h m net = .ok (.preCoreV20 t bh)) ∧
    ((∃ e, new_quorum_modifier_type t bh h m net = .error e) ↔
      core_v20_is_active_at net h = true ∧ alGet bh m = none) ∧
    LLMQModifierType.build_llmq_hash (.preCoreV20 t bh) =
      sha256 (sha256 (writeCompactSize t ++ bh)) ∧
    (∀ sig, LLMQModifierType.build_llmq_hash (.coreV20 t h sig) =
      sha256 (sha256 (writeCompactSize t ++ u32le h ++ sig))) := by
  refine ⟨?_, ?_, ?_, ?_, rfl, fun _ => rfl⟩ <;>
    simp only [new_quorum_modifier_type] <;>
    cases hact : core_v20_is_active_at net h <;>
    cases hget : alGet bh m <;>
    simp [hget]

/-- C5 (witness): the amended theorem applied on regtest (where Core v20
is active from height 1) with a known ChainLock signature for the work
block. -/
theorem c5_quorum_modifier_witness :
    new_quorum_modifier_type 1 (List.replicate 32 5) 9
        [(List.replicate 32 5, List.replicate 96 4)] .regtest =
      .ok (.coreV20 1 9 (List.replicate 96 4)) :=
  (c5_quorum_modifier 1 (List.replicate 32 5) 9
      [(List.replicate 32 5, List.replicate 96 4)] .regtest).1
    (by decide) (List.replicate 96 4) (by decide)

/-! ## Supporting lemmas on the codec primitives -/

theorem chunkifyFuel_nil (k f : Nat) : chunkifyFuel k f ([] : List α) = [] := by
  cases f <;> rfl

theorem chunkifyFuel_congr (k : Nat) (hk : 0 < k) :
    ∀ f f' (l : List α), l.length ≤ f → l.length ≤ f' →
      chunkifyFuel k f l = chunkifyFuel k f' l := by
  intro f
  induction f with
  | zero =>
    intro f' l h _
    have hl : l = [] := by cases l <;> simp_all
    subst hl
    rw [chunkifyFuel_nil, chunkifyFuel_nil]
  | succ f ih =>
    intro f' l h h'
    cases l with
    | nil => rw [chunkifyFuel_nil, chunkifyFuel_nil]
    | cons a t =>
      cases f' with
      | zero => simp at h'
      | succ f'' =>
        simp only [chunkifyFuel]
        congr 1
        apply ih
        · simp only [List.length_drop, List.length_cons] at *
          omega
        · simp only [List.length_drop, List.length_cons] at *
          omega

theorem chunkify_cons (k : Nat) (hk : 0 < k) (l : List α) (hl : l ≠ []) :
    chunkify k l = l.take k :: chunkify k (l.drop k) := by
  cases l with
  | nil => exact absurd rfl hl
  | cons a t =>
    show chunkifyFuel k (t.length + 1) (a :: t) = _
    simp only [chunkifyFuel]
    congr 1
    apply chunkifyFuel_congr k hk
    · simp only [List.length_drop, List.length_cons]
      omega
    · exact le_rfl

theorem packBits_cons (l : List Bool) (hl : l ≠ []) :
    packBits l = byteOfBits (l.take 8) :: packBits (l.drop 8) := by
  unfold packBits
  rw [chunkify_cons 8 (by omega) l hl]
  rfl

theorem packBits_length (l : List Bool) : (packBits l).length = (l.length + 7) / 8 := by
  suffices h : ∀ f (l : List Bool), l.length ≤ f →
      (packBits l).length = (l.length + 7) / 8 from h l.length l le_rfl
  intro f
  induction f with
  | zero =>
    intro l h
    have hl : l = [] := by cases l <;> simp_all
    subst hl
    rfl
  | succ f ih =>
    intro l h
    cases l with
    | nil => rfl
    | cons a t =>
      rw [packBits_cons _ (by simp)]
      have hd : ((a :: t).drop 8).length = t.length + 1 - 8 := by
        simp
      simp only [List.length_cons] at h
      rw [List.length_cons,
        ih ((a :: t).drop 8) (by simp only [List.length_drop, List.length_cons]; omega), hd]
      simp only [List.length_cons]
      omega

theorem bitsOfByte_byteOfBits (m : List Bool) : bitsOfByte (byteOfBits m) m.length = m := by
  induction m with
  | nil => rfl
  | cons b t ih =>
    show bitsOfByte (byteOfBits (b :: t)) (t.length + 1) = b :: t
    have hmod : byteOfBits (b :: t) % 2 = cond b 1 0 := by
      cases b
      · show (0 + 2 * byteOfBits t) % 2 = 0
        omega
      · show (1 + 2 * byteOfBits t) % 2 = 1
        omega
    have hdiv : byteOfBits (b :: t) / 2 = byteOfBits t := by
      cases b
      · show (0 + 2 * byteOfBits t) / 2 = byteOfBits t
        omega
      · show (1 + 2 * byteOfBits t) / 2 = byteOfBits t
        omega
    simp only [bitsOfByte, hmod, hdiv, ih]
    cases b <;> simp

theorem unpackBits_packBits (l : List Bool) : unpackBits l.length (packBits l) = l := by
  suffices h : ∀ f (l : List Bool), l.length ≤ f →
      unpackBits l.length (packBits l) = l from h l.length l le_rfl
  intro f
  induction f with
  | zero =>
    intro l h
    have hl : l = [] := by cases l <;> simp_all
    subst hl
    rfl
  | succ f ih =>
    intro l h
    cases l with
    | nil => rfl
    | cons a t =>
      rw [packBits_cons _ (by simp)]
      by_cases hle : t.length + 1 ≤ 8
      · have hdrop : (a :: t).drop 8 = [] := List.drop_eq_nil_of_le (by simp; omega)
        have htake : (a :: t).take 8 = a :: t := List.take_of_length_le (by simp; omega)
        rw [hdrop, htake]
        show unpackBits (t.length + 1) [byteOfBits (a :: t)] = a :: t
        have : (t.length + 1) ≤ 8 := hle
        simp only [unpackBits, if_pos this]
        have := bitsOfByte_byteOfBits (a :: t)
        simpa using this
      · have h8 : ((a :: t).take 8).length = 8 := by simp; omega
        show unpackBits (t.length + 1)
            (byteOfBits ((a :: t).take 8) :: packBits ((a :: t).drop 8)) = a :: t
        simp only [unpackBits, if_neg (by omega : ¬ t.length + 1 ≤ 8)]
        have hbits : bitsOfByte (byteOfBits ((a :: t).take 8)) 8 = (a :: t).take 8 := by
          have := bitsOfByte_byteOfBits ((a :: t).take 8)
          rwa [h8] at this
        have hlen : t.length + 1 - 8 = ((a :: t).drop 8).length := by simp
        rw [hbits, hlen,
          ih ((a :: t).drop 8)
            (by simp only [List.length_drop, List.length_cons] at h ⊢; omega),
          List.take_append_drop]

theorem readFixedBitset_packBits (l : List Bool) (r : List Nat) :
    readFixedBitset l.length (packBits l ++ r) = some (l, r) := by
  unfold readFixedBitset
  have hlen := packBits_length l
  rw [if_pos (by rw [← hlen]; simp)]
  rw [← hlen, List.take_left, List.drop_left, unpackBits_packBits]

theorem readCompactSize_writeCompactSize (n : Nat) (h : n < 18446744073709551616)
    (r : List Nat) : readCompactSize (writeCompactSize n ++ r) = some (n, r) := by
  by_cases h1 : n < 253
  · simp [writeCompactSize, readCompactSize, h1]
  · by_cases h2 : n < 65536
    · simp only [writeCompactSize, if_neg h1, if_pos h2, u16le, List.cons_append,
        List.nil_append, readCompactSize]
      norm_num
      omega
    · by_cases h3 : n < 4294967296
      · simp only [writeCompactSize, if_neg h1, if_neg (by omega : ¬ n < 65536), if_pos h3,
          u32le, List.cons_append, List.nil_append, readCompactSize]
        norm_num
        omega
      · simp only [writeCompactSize, if_neg h1, if_neg (by omega : ¬ n < 65536),
          if_neg (by omega : ¬ n < 4294967296), u64le, List.cons_append, List.nil_append,
          readCompactSize]
        norm_num
        omega

theorem readU16_u16le (n : Nat) (h : n < 65536) (r : List Nat) :
    readU16 (u16le n ++ r) = some (n, r) := by
  simp only [u16le, List.cons_append, List.nil_append, readU16]
  have hv : n % 256 + 256 * (n / 256 % 256) = n := by omega
  rw [hv]

theorem readBytes_exact (n : Nat) (l r : List Nat) (h : l.length = n) :
    readBytes n (l ++ r) = some (l, r) := by
  subst h
  simp [readBytes, List.take_left, List.drop_left]

theorem i16le_roundtrip (i : Int) (h1 : -32768 ≤ i) (h2 : i < 32768) :
    (i % 65536).toNat < 65536 ∧ i16OfWire (i % 65536).toNat = i := by
  unfold i16OfWire
  constructor
  · omega
  · split <;> omega

/-! ## Claim C4: quorum entry codec round-trip -/

/-- C4 (counterexample): decoding the consensus encoding does **not**
return the original entry for every `QuorumEntry`: `c4Entry` has
`version = 1` with `quorum_index = Some 7`, the encoder silently omits
the index (it is written only for versions 2 and 4), and the decoder
consequently returns the entry with `quorum_index = None`. -/
theorem c4_roundtrip_counterexample :
    QuorumEntry.consensus_decode c4Entry.consensus_encode =
      some ({ c4Entry with quorum_index := none }, []) ∧
    QuorumEntry.consensus_decode c4Entry.consensus_encode ≠ some (c4Entry, []) := by
  decide

/-- C4 (amended): for every well-formed `QuorumEntry` — fields of their
wire widths and, as the wire format requires, `quorum_index` present iff
the version is 2 or 4 — decoding the consensus encoding returns exactly
the entry and consumes exactly its bytes (so re-encoding the decode of
any encoder output reproduces the bytes). -/
theorem c4_decode_encode (q : QuorumEntry) (r : List Nat)
    (hver : q.version < 65536)
    (htv : llmqTypeValid q.llmq_type = true)
    (htb : q.llmq_type < 256)
    (hcoh : q.quorum_index.isSome ↔ (q.version = 2 ∨ q.version = 4))
    (hqi : ∀ i ∈ q.quorum_index, -32768 ≤ i ∧ i < 32768)
    (hqh : q.quorum_hash.length = 32)
    (hs : q.signers.length < 4294967296)
    (hvm : q.valid_members.length < 4294967296)
    (hpk : q.quorum_public_key.length = 48)
    (hvv : q.quorum_vvec_hash.length = 32)
    (hts : q.threshold_sig.length = 96)
    (hsig : q.all_commitment_aggregated_signature.length = 96) :
    QuorumEntry.consensus_decode (q.consensus_encode ++ r) = some (q, r) := by
  have hs' : q.signers.length % 4294967296 = q.signers.length := Nat.mod_eq_of_lt hs
  have hvm' : q.valid_members.length % 4294967296 = q.valid_members.length :=
    Nat.mod_eq_of_lt hvm
  have htb' : q.llmq_type % 256 = q.llmq_type := Nat.mod_eq_of_lt htb
  unfold QuorumEntry.consensus_encode QuorumEntry.consensus_decode QuorumEntry.decode_tail
  rw [hs', hvm', htb']
  by_cases hv24 : q.version = 2 ∨ q.version = 4
  · obtain ⟨i, hi⟩ := Option.isSome_iff_exists.mp (hcoh.mpr hv24)
    have hib := hqi i (Option.mem_def.mpr hi)
    have hle := i16le_roundtrip i hib.1 hib.2
    rw [hi]
    simp only [if_pos hv24, i16le, List.append_assoc, List.cons_append, List.nil_append,
      readU16_u16le q.version hver, readByte, htv, if_true,
      readBytes_exact 32 q.quorum_hash _ hqh,
      readU16_u16le ((i % 65536).toNat) hle.1, hle.2,
      readCompactSize_writeCompactSize q.signers.length (by omega),
      readCompactSize_writeCompactSize q.valid_members.length (by omega),
      readFixedBitset_packBits,
      readBytes_exact 48 q.quorum_public_key _ hpk,
      readBytes_exact 32 q.quorum_vvec_hash _ hvv,
      readBytes_exact 96 q.threshold_sig _ hts,
      readBytes_exact 96 q.all_commitment_aggregated_signature _ hsig]
    rw [← hi]
  · have hi : q.quorum_index = none := by
      cases hq : q.quorum_index with
      | none => rfl
      | some i => exact absurd (hcoh.mp (by rw [hq]; rfl)) hv24
    rw [hi]
    simp only [if_neg hv24, List.append_assoc, List.cons_append, List.nil_append,
      readU16_u16le q.version hver, readByte, htv, if_true,
      readBytes_exact 32 q.quorum_hash _ hqh,
      readCompactSize_writeCompactSize q.signers.length (by omega),
      readCompactSize_writeCompactSize q.valid_members.length (by omega),
      readFixedBitset_packBits,
      readBytes_exact 48 q.quorum_public_key _ hpk,
      readBytes_exact 32 q.quorum_vvec_hash _ hvv,
      readBytes_exact 96 q.threshold_sig _ hts,
      readBytes_exact 96 q.all_commitment_aggregated_signature _ hsig]
    rw [← hi]

/-- C4 (witness): the amended round-trip applied to the concrete
version-2 entry `c4Good` with trailing input `[9]`. -/
theorem c4_decode_encode_witness :
    QuorumEntry.consensus_decode (c4Good.consensus_encode ++ [9]) = some (c4Good, [9]) :=
  c4_decode_encode c4Good [9] (by decide) (by decide) (by decide) (by decide)
    (by intro i hi
        obtain rfl : i = -3 := by
          have := Option.mem_def.mp hi
          simpa [c4Good] using this.symm
        exact ⟨by norm_num, by norm_num⟩)
    (by decide) (by decide) (by decide) (by decide) (by decide) (by decide) (by decide)

/-! ## Claim C6: structural validation order -/

/-- C6 (counterexample): `validate_structure` does **not** report the
first failed rule in the order the invariants are listed in §3 (bitset
lengths first): on an entry with mismatched bitset lengths whose signers
popcount is also below threshold, it returns `InsufficientSigners`, not
`MismatchedBitsetLengths`. -/
theorem c6_order_counterexample :
    c6Entry.signers.length ≠ c6Entry.valid_members.length ∧
    c6Entry.validate_structure = .error (.insufficientSigners 30 0) ∧
    c6Entry.validate_structure ≠ .error (.mismatchedBitsetLengths 0 30) := by
  decide

/-- C6 (amended): `validate_structure` returns `Ok` exactly when all the
§3 invariants hold, and on failure returns the first failed rule in the
**code's** order: insufficient signers, insufficient valid members,
mismatched bitset lengths, zeroed quorum public key, zeroed threshold
signature, zeroed aggregated signature. -/
theorem c6_validate_structure (q : QuorumEntry) :
    (q.validate_structure = .ok () ↔
      (llmqThreshold q.llmq_type ≤ (q.signers.filter id).length ∧
       llmqThreshold q.llmq_type ≤ (q.valid_members.filter id).length ∧
       q.signers.length = q.valid_members.length ∧
       q.quorum_public_key ≠ List.replicate 48 0 ∧
       q.threshold_sig ≠ List.replicate 96 0 ∧
       q.all_commitment_aggregated_signature ≠ List.replicate 96 0)) ∧
    ((q.signers.filter id).length < llmqThreshold q.llmq_type →
      q.validate_structure = .error
        (.insufficientSigners (llmqThreshold q.llmq_type) (q.signers.filter id).length)) ∧
    (llmqThreshold q.llmq_type ≤ (q.signers.filter id).length →
      (q.valid_members.filter id).length < llmqThreshold q.llmq_type →
      q.validate_structure = .error
        (.insufficientValidMembers (llmqThreshold q.llmq_type)
          (q.valid_members.filter id).length)) ∧
    (llmqThreshold q.llmq_type ≤ (q.signers.filter id).length →
      llmqThreshold q.llmq_type ≤ (q.valid_members.filter id).length →
      q.signers.length ≠ q.valid_members.length →
      q.validate_structure = .error
        (.mismatchedBitsetLengths q.signers.length q.valid_members.length)) ∧
    (llmqThreshold q.llmq_type ≤ (q.signers.filter id).length →
      llmqThreshold q.llmq_type ≤ (q.valid_members.filter id).length →
      q.signers.length = q.valid_members.length →
      q.quorum_public_key = List.replicate 48 0 →
      q.validate_structure = .error .invalidQuorumPublicKey) ∧
    (llmqThreshold q.llmq_type ≤ (q.signers.filter id).length →
      llmqThreshold q.llmq_type ≤ (q.valid_members.filter id).length →
      q.signers.length = q.valid_members.length →
      q.quorum_public_key ≠ List.replicate 48 0 →
      q.threshold_sig = List.replicate 96 0 →
      q.validate_structure = .error .invalidQuorumSignature) ∧
    (llmqThreshold q.llmq_type ≤ (q.signers.filter id).length →
      llmqThreshold q.llmq_type ≤ (q.valid_members.filter id).length →
      q.signers.length = q.valid_members.length →
      q.quorum_public_key ≠ List.replicate 48 0 →
      q.threshold_sig ≠ List.replicate 96 0 →
      q.all_commitment_aggregated_signature = List.replicate 96 0 →
      q.validate_structure = .error .invalidFinalSignature) := by
  unfold QuorumEntry.validate_structure
  split_ifs with h1 h2 h3 h4 _h5 _h6 <;> simp_all

/-- C6 (witness): the amended theorem applied to the entry that violates
both the signers-popcount and the bitset-length invariants, yielding the
popcount error. -/
theorem c6_validate_structure_witness :
    c6Entry.validate_structure = .error (.insufficientSigners 30 0) :=
  (c6_validate_structure c6Entry).2.1 (by decide)

/-! ## Supporting lemmas on ordered maps -/

theorem mem_alInsert_elim [DecidableEq κ] (lt : κ → κ → Bool) (k : κ) (v : α)
    (l : List (κ × α)) (x : κ × α) (hx : x ∈ alInsert lt k v l) :
    x = (k, v) ∨ x ∈ l := by
  induction l with
  | nil => simpa [alInsert] using hx
  | cons p t ih =>
    obtain ⟨k', v'⟩ := p
    unfold alInsert at hx
    split_ifs at hx with h1 h2
    · rcases List.mem_cons.mp hx with h | h
      · exact Or.inl h
      · exact Or.inr h
    · rcases List.mem_cons.mp hx with h | h
      · exact Or.inl h
      · exact Or.inr (List.mem_cons_of_mem _ h)
    · rcases List.mem_cons.mp hx with h | h
      · exact Or.inr (h ▸ List.mem_cons_self _ _)
      · rcases ih h with h' | h'
        · exact Or.inl h'
        · exact Or.inr (List.mem_cons_of_mem _ h')

theorem alGet_mem [DecidableEq κ] (k : κ) (l : List (κ × α)) (v : α)
    (h : alGet k l = some v) : (k, v) ∈ l := by
  induction l with
  | nil => simp [alGet] at h
  | cons p t ih =>
    obtain ⟨k', v'⟩ := p
    unfold alGet at h
    split_ifs at h with h1
    · subst h1
      cases h
      exact List.mem_cons_self _ _
    · exact List.mem_cons_of_mem _ (ih h)

/-! ## Claim C10: quorums are ingested unverified -/

/-- Every quorum value reachable in a map built by the fold that
`from_diff` and `apply_diff` use to upsert new quorums satisfies `P`,
provided the freshly inserted values and the initial map's values do. -/
theorem quorums_foldl_insert_pred (f : QuorumEntry → QualifiedQuorumEntry)
    (P : QualifiedQuorumEntry → Prop) (hf : ∀ q, P (f q))
    (l : List QuorumEntry) :
    ∀ init, (∀ tq ∈ init, ∀ kq ∈ tq.2, P kq.2) →
      ∀ tq ∈ l.foldl
        (fun map q =>
          alInsert natLt q.llmq_type
            (alInsert bytesLt q.quorum_hash (f q) ((alGet q.llmq_type map).getD []))
            map)
        init,
        ∀ kq ∈ tq.2, P kq.2 := by
  induction l with
  | nil => intro init hinit tq htq kq hkq; exact hinit tq htq kq hkq
  | cons q t ih =>
    intro init hinit
    apply ih
    intro tq htq kq hkq
    rcases mem_alInsert_elim _ _ _ _ _ htq with h | h
    · subst h
      rcases mem_alInsert_elim _ _ _ _ _ hkq with h' | h'
      · subst h'
        exact hf q
      · cases hget : alGet q.llmq_type init with
        | none => rw [hget] at h'; simp at h'
        | some inner =>
          rw [hget] at h'
          exact hinit _ (alGet_mem _ _ _ hget) kq h'
    · exact hinit tq h kq hkq

/-- C10 (theorem): a `QualifiedQuorumEntry` built by the `From`
conversion carries status `Skipped(NotMarkedForVerification)` and both
hash caches computed from its entry, and every quorum in a list built by
`try_from_with_block_hash_lookup` does too — in particular ingestion
alone never yields a `Verified` quorum. -/
theorem c10_ingestion_initial_status :
    (∀ q : QuorumEntry,
      (qualifiedOfQuorumEntry q).verified = .skipped .notMarkedForVerification ∧
      (qualifiedOfQuorumEntry q).commitment_hash = q.calculate_commitment_hash ∧
      (qualifiedOfQuorumEntry q).entry_hash = q.calculate_entry_hash) ∧
    (∀ (diff : MnListDiff) (lookup : List Nat → Option Nat) (network : Network)
        (L : MasternodeList),
      try_from_with_block_hash_lookup diff lookup network = .ok L →
      ∀ tq ∈ L.quorums, ∀ kq ∈ tq.2,
        kq.2.verified = .skipped .notMarkedForVerification ∧
        kq.2.verified ≠ .verified ∧
        kq.2.commitment_hash = kq.2.quorum_entry.calculate_commitment_hash ∧
        kq.2.entry_hash = kq.2.quorum_entry.calculate_entry_hash) := by
  refine ⟨fun q => ⟨rfl, by simp only [qualifiedOfQuorumEntry],
    by simp only [qualifiedOfQuorumEntry]⟩, ?_⟩
  intro diff lookup network L hok tq htq kq hkq
  unfold try_from_with_block_hash_lookup at hok
  split at hok
  · exact Except.noConfusion hok
  · split at hok
    · exact Except.noConfusion hok
    · split at hok
      · exact Except.noConfusion hok
      injection hok with hL
      subst hL
      refine quorums_foldl_insert_pred qualifiedOfQuorumEntry
          (fun e => e.verified = .skipped .notMarkedForVerification ∧
            e.verified ≠ .verified ∧
            e.commitment_hash = e.quorum_entry.calculate_commitment_hash ∧
            e.entry_hash = e.quorum_entry.calculate_entry_hash)
          (fun q => ⟨rfl, by simp [qualifiedOfQuorumEntry],
            by simp only [qualifiedOfQuorumEntry],
            by simp only [qualifiedOfQuorumEntry]⟩)
          diff.new_quorums [] (by simp) tq ?_ kq hkq
      exact htq

/-! ## Further lemmas on ordered maps: lookups after inserts and
removals -/

theorem alGet_alInsert_self [DecidableEq κ] (lt : κ → κ → Bool) (k : κ) (v : α)
    (l : List (κ × α)) : alGet k (alInsert lt k v l) = some v := by
  induction l with
  | nil => simp [alGet, alInsert]
  | cons p t ih =>
    obtain ⟨k', v'⟩ := p
    unfold alInsert
    split_ifs with h1 h2
    · simp [alGet]
    · simp [alGet]
    · simp [alGet, h2, ih]

theorem alGet_alInsert_ne [DecidableEq κ] (lt : κ → κ → Bool) (k k' : κ) (v : α)
    (l : List (κ × α)) (hne : k' ≠ k) : alGet k' (alInsert lt k v l) = alGet k' l := by
  induction l with
  | nil => simp [alGet, alInsert, hne]
  | cons p t ih =>
    obtain ⟨k'', v''⟩ := p
    unfold alInsert
    split_ifs with h1 h2
    · simp [alGet, hne]
    · subst h2
      simp [alGet, hne]
    · by_cases h3 : k' = k''
      · simp [alGet, h3]
      · simp [alGet, h3, ih]

theorem alGet_eq_none_of_not_mem [DecidableEq κ] (k : κ) (l : List (κ × α))
    (h : k ∉ alKeys l) : alGet k l = none := by
  induction l with
  | nil => rfl
  | cons p t ih =>
    obtain ⟨k', v'⟩ := p
    simp only [alKeys, List.map_cons, List.mem_cons] at h
    push_neg at h
    simp [alGet, h.1, ih (by simpa [alKeys] using h.2)]

theorem alKeys_alRemove_sublist [DecidableEq κ] (k : κ) (l : List (κ × α)) :
    (alKeys (alRemove k l)).Sublist (alKeys l) := by
  induction l with
  | nil => simp [alRemove]
  | cons p t ih =>
    obtain ⟨k', v'⟩ := p
    unfold alRemove
    split_ifs with h1
    · simp [alKeys]
    · simpa [alKeys] using ih.cons₂ k'

theorem alGet_alRemove_self [DecidableEq κ] (k : κ) (l : List (κ × α))
    (hnd : (alKeys l).Nodup) : alGet k (alRemove k l) = none := by
  induction l with
  | nil => rfl
  | cons p t ih =>
    obtain ⟨k', v'⟩ := p
    simp only [alKeys, List.map_cons, List.nodup_cons] at hnd
    unfold alRemove
    split_ifs with h1
    · subst h1
      exact alGet_eq_none_of_not_mem k t (by simpa [alKeys] using hnd.1)
    · simp [alGet, h1, ih (by simpa [alKeys] using hnd.2)]

theorem alGet_alRemove_ne [DecidableEq κ] (k k' : κ) (l : List (κ × α))
    (hne : k' ≠ k) : alGet k' (alRemove k l) = alGet k' l := by
  induction l with
  | nil => rfl
  | cons p t ih =>
    obtain ⟨k'', v''⟩ := p
    unfold alRemove
    split_ifs with h1
    · subst h1
      simp [alGet, hne]
    · by_cases h3 : k' = k''
      · simp [alGet, h3]
      · simp [alGet, h3, ih]

theorem nodup_alKeys_alRemove [DecidableEq κ] (k : κ) (l : List (κ × α))
    (hnd : (alKeys l).Nodup) : (alKeys (alRemove k l)).Nodup :=
  hnd.sublist (alKeys_alRemove_sublist k l)

/-- Looking up a key after removing a list of keys: removed keys are
gone, others are untouched (the map's keys must be duplicate-free, as
`BTreeMap` guarantees). -/
theorem alGet_foldl_alRemove [DecidableEq κ] (ks : List κ) :
    ∀ (m : List (κ × α)), (alKeys m).Nodup → ∀ k,
      alGet k (ks.foldl (fun m k' => alRemove k' m) m) =
        if k ∈ ks then none else alGet k m := by
  induction ks with
  | nil => intro m _ k; simp
  | cons d ds ih =>
    intro m hnd k
    rw [List.foldl_cons, ih (alRemove d m) (nodup_alKeys_alRemove d m hnd) k]
    by_cases h1 : k ∈ ds
    · simp [h1]
    · by_cases h2 : k = d
      · subst h2
        simp [h1, alGet_alRemove_self k m hnd]
      · simp [h1, h2, alGet_alRemove_ne d k m h2]

theorem find?_append (p : α → Bool) (l₁ l₂ : List α) :
    (l₁ ++ l₂).find? p =
      match l₁.find? p with
      | some x => some x
      | none => l₂.find? p := by
  induction l₁ with
  | nil => simp
  | cons a t ih =>
    by_cases h : p a <;> simp [List.find?_cons, h, ih]

/-- Looking up a key after a fold of inserts: the **last** insert with
that key wins, otherwise the base map answers. -/
theorem alGet_foldl_alInsert [DecidableEq κ] (lt : κ → κ → Bool)
    (key : β → κ) (val : β → α) (l : List β) :
    ∀ (m : List (κ × α)) (k : κ),
      alGet k (l.foldl (fun m e => alInsert lt (key e) (val e) m) m) =
        match l.reverse.find? (fun e => decide (key e = k)) with
        | some e => some (val e)
        | none => alGet k m := by
  induction l with
  | nil => intro m k; simp
  | cons e es ih =>
    intro m k
    rw [List.foldl_cons, ih (alInsert lt (key e) (val e) m) k, List.reverse_cons,
      find?_append]
    cases hfind : es.reverse.find? (fun e => decide (key e = k)) with
    | some x => rfl
    | none =>
      by_cases hk : key e = k
      · subst hk
        simp [List.find?, alGet_alInsert_self]
      · rw [alGet_alInsert_ne lt (key e) k (val e) m (Ne.symm hk)]
        simp [List.find?, hk]

/-! ## Claim C3: diff application -/

/-- C3: `apply_diff` fails exactly on a base-hash mismatch, with exactly
the claimed error; on success the new list carries `diff.block_hash` and
the end height, its masternode map is the base map with deletions removed
under byte-reversed keys and new entries upserted under their
byte-reversed `pro_reg_tx_hash`, its quorum map has deletions removed
(dropping emptied buckets) and new quorums upserted — and lookups in the
updated masternode map behave accordingly: the last inserted entry for a
key wins, deleted keys are gone, all other keys are untouched. -/
theorem c3_apply_diff (L : MasternodeList) (D : MnListDiff) (h : Nat) :
    (L.apply_diff D h = .error (.baseBlockHashMismatch L.block_hash D.base_block_hash) ↔
      D.base_block_hash ≠ L.block_hash) ∧
    (∀ e, L.apply_diff D h = .error e →
      e = .baseBlockHashMismatch L.block_hash D.base_block_hash ∧
      D.base_block_hash ≠ L.block_hash) ∧
    (D.base_block_hash = L.block_hash →
      L.apply_diff D h =
        .ok (MasternodeList.new (updated_masternodes L.masternodes D)
          (updated_quorums L.quorums D) D.block_hash h true) ∧
      (MasternodeList.new (updated_masternodes L.masternodes D)
          (updated_quorums L.quorums D) D.block_hash h true).block_hash =
        D.block_hash ∧
      (MasternodeList.new (updated_masternodes L.masternodes D)
          (updated_quorums L.quorums D) D.block_hash h true).known_height = h ∧
      (MasternodeList.new (updated_masternodes L.masternodes D)
          (updated_quorums L.quorums D) D.block_hash h true).masternodes =
        updated_masternodes L.masternodes D ∧
      (MasternodeList.new (updated_masternodes L.masternodes D)
          (updated_quorums L.quorums D) D.block_hash h true).quorums =
        updated_quorums L.quorums D) ∧
    ((alKeys L.masternodes).Nodup → ∀ k,
      alGet k (updated_masternodes L.masternodes D) =
        match D.new_masternodes.reverse.find?
            (fun e => decide (e.pro_reg_tx_hash.reverse = k)) with
        | some e => some (qualifiedOfMasternodeListEntry e)
        | none =>
          if k ∈ D.deleted_masternodes.map List.reverse then none
          else alGet k L.masternodes) := by
  refine ⟨?_, ?_, ?_, ?_⟩
  · unfold MasternodeList.apply_diff
    split_ifs with hb
    · exact iff_of_true rfl (Ne.symm hb)
    · exact iff_of_false (by simp) (fun hne => hne (not_not.mp hb).symm)
  · unfold MasternodeList.apply_diff
    split_ifs with hb
    · intro e he
      injection he with he
      exact ⟨he.symm, Ne.symm hb⟩
    · intro e he
      exact absurd he (by simp)
  · intro hbase
    unfold MasternodeList.apply_diff
    rw [if_neg (by rw [hbase]; exact fun hc => hc rfl)]
    exact ⟨rfl, rfl, rfl, rfl, rfl⟩
  · intro hnd k
    unfold updated_masternodes
    rw [alGet_foldl_alInsert bytesLt (fun e => e.pro_reg_tx_hash.reverse)
      qualifiedOfMasternodeListEntry D.new_masternodes _ k]
    cases D.new_masternodes.reverse.find?
        (fun e => decide (e.pro_reg_tx_hash.reverse = k)) with
    | some e => rfl
    | none =>
      show alGet k (D.deleted_masternodes.foldl
          (fun m pro_tx_hash => alRemove pro_tx_hash.reverse m) L.masternodes) = _
      rw [← List.foldl_map List.reverse (fun m k' => alRemove k' m),
        alGet_foldl_alRemove (D.deleted_masternodes.map List.reverse) L.masternodes hnd k]
      simp

/-- C3 (witness): the theorem applied to the concrete empty base list
and the diff inserting `c3MN`; the lookup under the byte-reversed hash
returns the qualified entry. -/
theorem c3_apply_diff_witness :
    c3L.apply_diff c3D 5 =
      .ok (MasternodeList.new (updated_masternodes c3L.masternodes c3D)
        (updated_quorums c3L.quorums c3D) c3D.block_hash 5 true) ∧
    alGet c3MN.pro_reg_tx_hash.reverse (updated_masternodes c3L.masternodes c3D) =
      some (qualifiedOfMasternodeListEntry c3MN) := by
  refine ⟨((c3_apply_diff c3L c3D 5).2.2.1 rfl).1, ?_⟩
  rw [(c3_apply_diff c3L c3D 5).2.2.2 (by simp [c3L, alKeys])
    c3MN.pro_reg_tx_hash.reverse]
  rfl

/-- C10 (witness): the `from_diff` part of the theorem applied to the
concrete one-masternode, one-quorum diff `c10Diff` ingested on devnet
(which has no statically known genesis), instantiated at the single
stored quorum. -/
theorem c10_ingestion_initial_status_witness :
    c10QQ.verified = .skipped .notMarkedForVerification ∧
    c10QQ.verified ≠ .verified ∧
    c10QQ.commitment_hash = c10QQ.quorum_entry.calculate_commitment_hash ∧
    c10QQ.entry_hash = c10QQ.quorum_entry.calculate_entry_hash :=
  c10_ingestion_initial_status.2 c10Diff (fun _ => some 10) .devnet c10L rfl
    (c10Q.llmq_type, [(c10Q.quorum_hash, c10QQ)]) (by simp [c10L])
    (c10Q.quorum_hash, c10QQ) (by simp)

/-! ## Supporting lemmas on sorting and merkle levels -/

theorem map_insertAsc (f : α → β) (lt : β → β → Bool) (a : α) (l : List α) :
    (insertAsc (fun x y => lt (f x) (f y)) a l).map f = insertAsc lt (f a) (l.map f) := by
  induction l with
  | nil => rfl
  | cons b t ih =>
    unfold insertAsc
    by_cases h : lt (f b) (f a) <;> simp [h, ih]

theorem map_sortAsc (f : α → β) (lt : β → β → Bool) (l : List α) :
    (sortAsc (fun x y => lt (f x) (f y)) l).map f = sortAsc lt (l.map f) := by
  induction l with
  | nil => rfl
  | cons a t ih =>
    unfold sortAsc at *
    simp only [List.foldr_cons, List.map_cons]
    rw [map_insertAsc, ih]

theorem perm_insertAsc (lt : α → α → Bool) (a : α) (l : List α) :
    (insertAsc lt a l).Perm (a :: l) := by
  induction l with
  | nil => exact List.Perm.refl _
  | cons b t ih =>
    unfold insertAsc
    by_cases h : lt b a
    · simp only [h, if_true]
      exact (ih.cons b).trans (List.Perm.swap a b t)
    · simp [h]

theorem perm_sortAsc (lt : α → α → Bool) (l : List α) : (sortAsc lt l).Perm l := by
  induction l with
  | nil => exact List.Perm.refl _
  | cons a t ih =>
    unfold sortAsc at *
    simp only [List.foldr_cons]
    exact (perm_insertAsc lt a _).trans (ih.cons a)

theorem alGet_of_mem_nodup [DecidableEq κ] (k : κ) (v : α) (l : List (κ × α))
    (hmem : (k, v) ∈ l) (hnd : (alKeys l).Nodup) : alGet k l = some v := by
  induction l with
  | nil => simp at hmem
  | cons p t ih =>
    obtain ⟨k', v'⟩ := p
    simp only [alKeys, List.map_cons, List.nodup_cons] at hnd
    rcases List.mem_cons.mp hmem with h | h
    · injection h with h1 h2
      subst h1
      subst h2
      simp [alGet]
    · by_cases hk : k = k'
      · subst hk
        exact absurd (by simpa [alKeys] using List.mem_map_of_mem Prod.fst h) hnd.1
      · simp [alGet, hk, ih h (by simpa [alKeys] using hnd.2)]

theorem merkleLevels_nil : ∀ f, merkleLevels f [] = [] := by
  intro f
  induction f with
  | zero => rfl
  | succ f ih => simp [merkleLevels, combineLevel, chunkify, chunkifyFuel, ih]

theorem chunkify_two_length (l : List α) : (chunkify 2 l).length = (l.length + 1) / 2 := by
  suffices h : ∀ f (l : List α), l.length ≤ f →
      (chunkify 2 l).length = (l.length + 1) / 2 from h l.length l le_rfl
  intro f
  induction f with
  | zero =>
    intro l h
    have hl : l = [] := by cases l <;> simp_all
    subst hl
    simp [chunkify, chunkifyFuel]
  | succ f ih =>
    intro l h
    cases l with
    | nil => simp [chunkify, chunkifyFuel]
    | cons a t =>
      rw [chunkify_cons 2 (by omega) _ (by simp)]
      simp only [List.length_cons] at h
      rw [List.length_cons, ih ((a :: t).drop 2)
        (by simp only [List.length_drop, List.length_cons]; omega)]
      simp only [List.length_drop, List.length_cons]
      omega

theorem combineLevel_length (l : List (List Nat)) :
    (combineLevel l).length = (l.length + 1) / 2 := by
  unfold combineLevel
  rw [List.length_map, chunkify_two_length]

theorem merkleLevels_congr :
    ∀ f f' (l : List (List Nat)), l.length ≤ f → l.length ≤ f' →
      merkleLevels f l = merkleLevels f' l := by
  intro f
  induction f with
  | zero =>
    intro f' l h _
    have hl : l = [] := by cases l <;> simp_all
    subst hl
    rw [merkleLevels_nil, merkleLevels_nil]
  | succ f ih =>
    intro f' l h h'
    cases l with
    | nil => rw [merkleLevels_nil, merkleLevels_nil]
    | cons a t =>
      cases f' with
      | zero => simp at h'
      | succ f'' =>
        simp only [merkleLevels]
        by_cases h1 : (a :: t).length = 1
        · simp [h1]
        · simp only [h1, if_false]
          apply ih
          · rw [combineLevel_length]
            simp only [List.length_cons] at *
            omega
          · rw [combineLevel_length]
            simp only [List.length_cons] at *
            omega

theorem merkle_root_cons (x : List Nat) (t : List (List Nat)) :
    merkle_root_from_hashes (x :: t) =
      some ((merkleLevels (x :: t).length (x :: t)).headD []) := rfl

theorem merkleLevels_step (l : List (List Nat)) (h2 : 2 ≤ l.length) :
    merkleLevels l.length l =
      merkleLevels (combineLevel l).length (combineLevel l) := by
  cases hn : l.length with
  | zero => omega
  | succ n =>
    show (if l.length = 1 then l else merkleLevels n (combineLevel l)) =
      merkleLevels (combineLevel l).length (combineLevel l)
    rw [if_neg (by omega : ¬ l.length = 1)]
    apply merkleLevels_congr
    · rw [combineLevel_length]
      omega
    · exact le_rfl

/-! ## Claim C9: merkle roots and their leaves -/

/-- C9 (counterexample): the masternode-root leaves are **not** ordered
by the byte-reversed `pro_reg_tx_hash` ascending: on the concrete
two-entry list `c9L` the code orders by the raw `pro_reg_tx_hash`
(re-reversing the stored reversed keys before comparing), which differs
from the spec's ordering. -/
theorem c9_leaf_order_counterexample :
    c9L.hashes_for_merkle_root 7 =
      some [List.replicate 32 11, List.replicate 32 22] ∧
    spec_masternode_root_leaves c9L =
      [List.replicate 32 22, List.replicate 32 11] ∧
    c9L.hashes_for_merkle_root 7 ≠ some (spec_masternode_root_leaves c9L) := by
  decide

/-- C9 (amended): `merkle_root_from_hashes` is `None` iff the input is
empty; a singleton is its own root; a level of length ≥ 2 is reduced by
pairing adjacent hashes (duplicating the last of an odd level) under
double SHA-256; the masternode-root leaves are the `entry_hash`es ordered
by the **raw** `pro_reg_tx_hash` ascending (the stored byte-reversed keys
are re-reversed before comparison); the quorum-root leaves are all quorum
entry hashes sorted ascending by raw bytes. -/
theorem c9_merkle_roots (l : List (List Nat)) (a b : List Nat)
    (rest : List (List Nat)) (L : MasternodeList) (bh : Nat) :
    (merkle_root_from_hashes l = none ↔ l = []) ∧
    merkle_root_from_hashes [a] = some a ∧
    (2 ≤ l.length → merkle_root_from_hashes l =
      merkle_root_from_hashes (combineLevel l)) ∧
    combineLevel (a :: b :: rest) = sha256d (a ++ b) :: combineLevel rest ∧
    combineLevel [a] = [sha256d (a ++ a)] ∧
    (bh ≠ 4294967295 →
      (∀ p ∈ L.masternodes, p.1 = p.2.masternode_list_entry.pro_reg_tx_hash.reverse) →
      (alKeys L.masternodes).Nodup →
      L.hashes_for_merkle_root bh =
        some ((sortAsc
            (fun e1 e2 => bytesLt e1.masternode_list_entry.pro_reg_tx_hash
              e2.masternode_list_entry.pro_reg_tx_hash)
            (alValues L.masternodes)).map (·.entry_hash))) ∧
    L.hashes_for_quorum_merkle_root =
      sortAsc bytesLt
        (((L.quorums.map (fun q_map => alValues q_map.2)).flatten).map (·.entry_hash)) := by
  refine ⟨?_, ?_, ?_, ?_, ?_, ?_, rfl⟩
  · cases l with
    | nil => simp [merkle_root_from_hashes]
    | cons x t => simp [merkle_root_from_hashes]
  · rfl
  · intro h2
    cases l with
    | nil => simp at h2
    | cons x t =>
      have hcomb : combineLevel (x :: t) ≠ [] := by
        have hl := combineLevel_length (x :: t)
        intro hc
        rw [hc] at hl
        simp only [List.length_nil, List.length_cons] at hl
        omega
      cases hc : combineLevel (x :: t) with
      | nil => exact absurd hc hcomb
      | cons y s =>
        rw [merkle_root_cons x t, merkle_root_cons y s, ← hc,
          ← merkleLevels_step (x :: t) h2]
  · unfold combineLevel
    rw [chunkify_cons 2 (by omega) (a :: b :: rest) (by simp)]
    rfl
  · rfl
  · intro hbh hkeys hnd
    unfold MasternodeList.hashes_for_merkle_root
    rw [if_neg hbh]
    congr 1
    have hkeq : alKeys L.masternodes =
        (alValues L.masternodes).map
          (fun e => e.masternode_list_entry.pro_reg_tx_hash.reverse) := by
      unfold alKeys alValues
      rw [List.map_map]
      exact List.map_congr_left hkeys
    rw [hkeq, ← map_sortAsc (fun e => e.masternode_list_entry.pro_reg_tx_hash.reverse)
      (fun s1 s2 => bytesLt s1.reverse s2.reverse) (alValues L.masternodes)]
    have hcmp : (fun x y : QualifiedMasternodeListEntry =>
        bytesLt x.masternode_list_entry.pro_reg_tx_hash.reverse.reverse
          y.masternode_list_entry.pro_reg_tx_hash.reverse.reverse) =
        (fun e1 e2 : QualifiedMasternodeListEntry =>
          bytesLt e1.masternode_list_entry.pro_reg_tx_hash
            e2.masternode_list_entry.pro_reg_tx_hash) := by
      funext x y
      rw [List.reverse_reverse, List.reverse_reverse]
    rw [List.map_map, hcmp]
    apply List.map_congr_left
    intro e he
    have hev : e ∈ alValues L.masternodes :=
      ((perm_sortAsc _ _).mem_iff).mp he
    obtain ⟨p, hp, hsnd⟩ := List.mem_map.mp hev
    have hkey := hkeys p hp
    have hpe : (e.masternode_list_entry.pro_reg_tx_hash.reverse, e) ∈ L.masternodes := by
      have hpq : p = (e.masternode_list_entry.pro_reg_tx_hash.reverse, e) := by
        rw [← hsnd]
        exact Prod.ext hkey rfl
      rwa [hpq] at hp
    show ((alGet e.masternode_list_entry.pro_reg_tx_hash.reverse
        L.masternodes).map (·.entry_hash)).getD [] = e.entry_hash
    rw [alGet_of_mem_nodup _ _ _ hpe hnd]
    rfl

/-- C9 (witness): the amended theorem applied to a concrete two-hash
level (one combine step) and to the concrete two-entry list `c9L` at
height 7 (leaves ordered by the raw `pro_reg_tx_hash`). -/
theorem c9_merkle_roots_witness :
    merkle_root_from_hashes [List.replicate 32 1, List.replicate 32 2] =
      merkle_root_from_hashes (combineLevel [List.replicate 32 1, List.replicate 32 2]) ∧
    c9L.hashes_for_merkle_root 7 =
      some ((sortAsc
          (fun e1 e2 => bytesLt e1.masternode_list_entry.pro_reg_tx_hash
            e2.masternode_list_entry.pro_reg_tx_hash)
          (alValues c9L.masternodes)).map (·.entry_hash)) :=
  ⟨(c9_merkle_roots [List.replicate 32 1, List.replicate 32 2] [] [] [] c9L 7).2.2.1
      (by decide),
   (c9_merkle_roots [List.replicate 32 1, List.replicate 32 2] [] [] [] c9L 7).2.2.2.2.2.1
      (by decide) (by decide) (by decide)⟩

/-! ## Supporting lemmas on the byte order -/

theorem bytesLt_irrefl (a : List Nat) : bytesLt a a = false := by
  induction a with
  | nil => rfl
  | cons x t ih => simp [bytesLt, ih]

theorem bytesLt_asymm (a : List Nat) :
    ∀ b : List Nat, bytesLt a b = true → bytesLt b a = false := by
  induction a with
  | nil =>
    intro b h
    cases b with
    | nil => simp [bytesLt] at h
    | cons y s => rfl
  | cons x t ih =>
    intro b h
    cases b with
    | nil => simp [bytesLt] at h
    | cons y s =>
      simp only [bytesLt] at h ⊢
      by_cases h1 : x < y
      · simp [h1, Nat.lt_asymm h1]
      · by_cases h2 : y < x
        · simp [h1, h2] at h
        · simp only [h1, h2, if_false] at h ⊢
          exact ih s h

theorem bytesLt_total_eq (a : List Nat) :
    ∀ b : List Nat, bytesLt a b = false → bytesLt b a = false → a = b := by
  induction a with
  | nil =>
    intro b h1 _
    cases b with
    | nil => rfl
    | cons y s => simp [bytesLt] at h1
  | cons x t ih =>
    intro b h1 h2
    cases b with
    | nil => simp [bytesLt] at h2
    | cons y s =>
      simp only [bytesLt] at h1 h2
      by_cases hxy : x < y
      · simp [hxy] at h1
      · by_cases hyx : y < x
        · simp [hyx] at h2
        · have hxy' : x = y := Nat.le_antisymm (Nat.not_lt.mp hyx) (Nat.not_lt.mp hxy)
          subst hxy'
          simp only [hxy, hyx, if_false] at h1 h2
          rw [ih s h1 h2]

theorem bytesLt_trans (a : List Nat) :
    ∀ b c : List Nat, bytesLt a b = true → bytesLt b c = true →
      bytesLt a c = true := by
  induction a with
  | nil =>
    intro b c hab hbc
    cases c with
    | nil =>
      cases b with
      | nil => simp [bytesLt] at hab
      | cons y s => simp [bytesLt] at hbc
    | cons z u => rfl
  | cons x t ih =>
    intro b c hab hbc
    cases b with
    | nil => simp [bytesLt] at hab
    | cons y s =>
      cases c with
      | nil => simp [bytesLt] at hbc
      | cons z u =>
        simp only [bytesLt] at hab hbc ⊢
        by_cases h1 : x < y
        · by_cases h2 : y < z
          · simp [Nat.lt_trans h1 h2]
          · by_cases h3 : z < y
            · simp [h2, h3] at hbc
            · have hyz : y = z := Nat.le_antisymm (Nat.not_lt.mp h3) (Nat.not_lt.mp h2)
              subst hyz
              simp [h1]
        · by_cases h1' : y < x
          · simp [h1, h1'] at hab
          · have hxy : x = y := Nat.le_antisymm (Nat.not_lt.mp h1') (Nat.not_lt.mp h1)
            subst hxy
            simp only [h1, h1', if_false] at hab
            by_cases h2 : x < z
            · simp [h2]
            · by_cases h3 : z < x
              · simp [h2, h3] at hbc
              · simp only [h2, h3, if_false] at hbc ⊢
                exact ih s u hab hbc

theorem scoreHashLt_trans (a b c : List Nat) (hab : scoreHashLt a b = true)
    (hbc : scoreHashLt b c = true) : scoreHashLt a c = true :=
  bytesLt_trans a.reverse b.reverse c.reverse hab hbc

theorem scoreHashLt_total_eq (a b : List Nat) (h1 : scoreHashLt a b = false)
    (h2 : scoreHashLt b a = false) : a = b :=
  List.reverse_injective (bytesLt_total_eq a.reverse b.reverse h1 h2)

theorem scoreHashLt_asymm (a b : List Nat) (h : scoreHashLt a b = true) :
    scoreHashLt b a = false :=
  bytesLt_asymm a.reverse b.reverse h

/-! ## Supporting lemmas: sortedness and permutations of `alInsert` folds
and of the insertion sort -/

theorem alKeys_alInsert_sub [DecidableEq κ] (lt : κ → κ → Bool) (k : κ) (v : α)
    (l : List (κ × α)) (x : κ) (hx : x ∈ alKeys (alInsert lt k v l)) :
    x = k ∨ x ∈ alKeys l := by
  simp only [alKeys, List.mem_map] at hx ⊢
  obtain ⟨p, hp, rfl⟩ := hx
  rcases mem_alInsert_elim lt k v l p hp with h | h
  · exact Or.inl (by rw [h])
  · exact Or.inr ⟨p, h, rfl⟩

theorem perm_alInsert_fresh [DecidableEq κ] (lt : κ → κ → Bool) (k : κ) (v : α)
    (l : List (κ × α)) (hk : k ∉ alKeys l) :
    (alInsert lt k v l).Perm ((k, v) :: l) := by
  induction l with
  | nil => exact List.Perm.refl _
  | cons p t ih =>
    obtain ⟨k', v'⟩ := p
    simp only [alKeys, List.map_cons, List.mem_cons] at hk
    push_neg at hk
    obtain ⟨hk1, hk2⟩ := hk
    unfold alInsert
    split_ifs with h1
    · exact List.Perm.refl _
    · exact ((ih (by simpa [alKeys] using hk2)).cons (k', v')).trans
        (List.Perm.swap (k, v) (k', v') t)

theorem pairwise_alInsert [DecidableEq κ] (lt : κ → κ → Bool)
    (htrans : ∀ a b c, lt a b = true → lt b c = true → lt a c = true)
    (htot : ∀ a b, lt a b = false → lt b a = false → a = b)
    (k : κ) (v : α) (l : List (κ × α)) (hk : k ∉ alKeys l)
    (hs : l.Pairwise (fun p q => lt p.1 q.1 = true)) :
    (alInsert lt k v l).Pairwise (fun p q => lt p.1 q.1 = true) := by
  induction l with
  | nil => simp [alInsert]
  | cons p t ih =>
    obtain ⟨k', v'⟩ := p
    simp only [alKeys, List.map_cons, List.mem_cons] at hk
    push_neg at hk
    obtain ⟨hk1, hk2⟩ := hk
    obtain ⟨hhead, htail⟩ := List.pairwise_cons.mp hs
    unfold alInsert
    split_ifs with h1
    · refine List.Pairwise.cons ?_ hs
      intro q hq
      rcases List.mem_cons.mp hq with rfl | hq'
      · exact h1
      · exact htrans k k' q.1 h1 (hhead q hq')
    · have hlt : lt k' k = true := by
        cases hh : lt k' k
        · exact absurd (htot k k' (by simpa using h1) hh) hk1
        · rfl
      refine List.Pairwise.cons ?_ (ih (by simpa [alKeys] using hk2) htail)
      intro q hq
      rcases mem_alInsert_elim lt k v t q hq with rfl | hq'
      · exact hlt
      · exact hhead q hq'

theorem foldl_alInsert_sorted_perm [DecidableEq κ] (lt : κ → κ → Bool)
    (htrans : ∀ a b c, lt a b = true → lt b c = true → lt a c = true)
    (htot : ∀ a b, lt a b = false → lt b a = false → a = b) :
    ∀ (pairs acc : List (κ × α)),
      (∀ p ∈ pairs, p.1 ∉ alKeys acc) →
      pairs.Pairwise (fun p q => p.1 ≠ q.1) →
      acc.Pairwise (fun p q => lt p.1 q.1 = true) →
      (pairs.foldl (fun m p => alInsert lt p.1 p.2 m) acc).Pairwise
          (fun p q => lt p.1 q.1 = true) ∧
        (pairs.foldl (fun m p => alInsert lt p.1 p.2 m) acc).Perm (pairs ++ acc) := by
  intro pairs
  induction pairs with
  | nil =>
    intro acc _ _ hacc
    exact ⟨hacc, List.Perm.refl _⟩
  | cons p ps ih =>
    intro acc hfresh hdist hacc
    simp only [List.foldl_cons]
    have hfp : p.1 ∉ alKeys acc := hfresh p (List.mem_cons_self p ps)
    obtain ⟨hh, ht⟩ := List.pairwise_cons.mp hdist
    have hfresh' : ∀ q ∈ ps, q.1 ∉ alKeys (alInsert lt p.1 p.2 acc) := by
      intro q hq hmem
      rcases alKeys_alInsert_sub lt p.1 p.2 acc q.1 hmem with h | h
      · exact hh q hq h.symm
      · exact hfresh q (List.mem_cons_of_mem p hq) h
    obtain ⟨hs, hperm⟩ := ih (alInsert lt p.1 p.2 acc) hfresh' ht
      (pairwise_alInsert lt htrans htot p.1 p.2 acc hfp hacc)
    refine ⟨hs, hperm.trans ?_⟩
    exact (List.Perm.append_left ps (perm_alInsert_fresh lt p.1 p.2 acc hfp)).trans
      List.perm_middle

theorem mem_insertAsc (lt : α → α → Bool) (a : α) (l : List α) (x : α)
    (hx : x ∈ insertAsc lt a l) : x = a ∨ x ∈ l := by
  have := (perm_insertAsc lt a l).mem_iff.mp hx
  simpa using this

theorem pairwise_insertAsc (lt : α → α → Bool)
    (htrans : ∀ a b c, lt a b = true → lt b c = true → lt a c = true)
    (a : α) (l : List α)
    (hcomp : ∀ b ∈ l, lt a b = true ∨ lt b a = true)
    (hs : l.Pairwise (fun x y => lt x y = true)) :
    (insertAsc lt a l).Pairwise (fun x y => lt x y = true) := by
  induction l with
  | nil => simp [insertAsc]
  | cons b t ih =>
    obtain ⟨hh, ht⟩ := List.pairwise_cons.mp hs
    unfold insertAsc
    split_ifs with h1
    · refine List.Pairwise.cons ?_
        (ih (fun c hc => hcomp c (List.mem_cons_of_mem b hc)) ht)
      intro y hy
      rcases mem_insertAsc lt a t y hy with rfl | hy'
      · exact h1
      · exact hh y hy'
    · have hab : lt a b = true := by
        rcases hcomp b (List.mem_cons_self b t) with h | h
        · exact h
        · exact absurd h h1
      refine List.Pairwise.cons ?_ hs
      intro y hy
      rcases List.mem_cons.mp hy with rfl | hy'
      · exact hab
      · exact htrans a b y hab (hh y hy')

theorem pairwise_sortAsc (lt : α → α → Bool)
    (htrans : ∀ a b c, lt a b = true → lt b c = true → lt a c = true)
    (l : List α)
    (hpc : l.Pairwise (fun x y => lt x y = true ∨ lt y x = true)) :
    (sortAsc lt l).Pairwise (fun x y => lt x y = true) := by
  induction l with
  | nil => simp [sortAsc]
  | cons a t ih =>
    obtain ⟨hh, ht⟩ := List.pairwise_cons.mp hpc
    unfold sortAsc at *
    simp only [List.foldr_cons]
    refine pairwise_insertAsc lt htrans a _ ?_ (ih ht)
    intro b hb
    exact hh b ((perm_sortAsc lt t).mem_iff.mp hb)

theorem sorted_perm_eq (lt : α → α → Bool)
    (hasym : ∀ a b, lt a b = true → lt b a = false)
    (l₁ l₂ : List α) (hp : l₁.Perm l₂)
    (h₁ : l₁.Pairwise (fun x y => lt x y = true))
    (h₂ : l₂.Pairwise (fun x y => lt x y = true)) : l₁ = l₂ := by
  haveI : IsAntisymm α (fun x y => lt x y = true) :=
    ⟨fun a b hab hba => absurd hba (by simp [hasym a b hab])⟩
  exact List.eq_of_perm_of_sorted hp h₁ h₂

/-! ## Supporting lemmas on masternode scores -/

theorem score_isSome_eq (e : QualifiedMasternodeListEntry) (modifier : List Nat)
    (h : (e.score modifier).isSome = true) :
    e.score modifier =
      some (create_score e.confirmed_hash_hashed_with_pro_reg_tx modifier) := by
  unfold QualifiedMasternodeListEntry.score at h ⊢
  split_ifs at h ⊢ with hc
  · simp at h
  · rfl

theorem score_isSome_iff (e : QualifiedMasternodeListEntry) (modifier : List Nat) :
    (e.score modifier).isSome = true ↔
      (e.masternode_list_entry.is_valid = true ∧
        e.confirmed_hash_hashed_with_pro_reg_tx.isSome = true) := by
  unfold QualifiedMasternodeListEntry.score
  split_ifs with h
  · simp only [Option.isSome_none, Bool.false_eq_true, false_iff]
    rintro ⟨hv, hc⟩
    rcases h with h | h
    · exact h hv
    · rw [h] at hc
      simp at hc
  · simp only [Option.isSome_some, true_iff]
    push_neg at h
    obtain ⟨hv, hc⟩ := h
    refine ⟨hv, ?_⟩
    cases hcc : e.confirmed_hash_hashed_with_pro_reg_tx
    · exact absurd hcc hc
    · rfl

theorem scores_fold_eq_pairs (quorum_modifier : List Nat) (hpmn_only : Bool) :
    ∀ (entries : List QualifiedMasternodeListEntry)
      (acc : List (List Nat × QualifiedMasternodeListEntry)),
      entries.foldl
        (fun m entry =>
          if ¬ hpmn_only ∨ entry.masternode_list_entry.mn_type.isHighPerformance then
            match entry.score quorum_modifier with
            | some score => alInsert scoreHashLt score entry m
            | none => m
          else m) acc =
      ((entries.filter (fun e =>
          (!hpmn_only || e.masternode_list_entry.mn_type.isHighPerformance) &&
            (e.score quorum_modifier).isSome)).map
        (fun e =>
          (create_score e.confirmed_hash_hashed_with_pro_reg_tx quorum_modifier,
            e))).foldl
        (fun m p => alInsert scoreHashLt p.1 p.2 m) acc := by
  intro entries
  induction entries with
  | nil => intro acc; rfl
  | cons e t ih =>
    intro acc
    simp only [List.foldl_cons, List.filter_cons]
    by_cases h1 : (!hpmn_only || e.masternode_list_entry.mn_type.isHighPerformance) = true
    · have h1' : ¬ hpmn_only = true ∨
          e.masternode_list_entry.mn_type.isHighPerformance = true := by
        simpa [Bool.or_eq_true, Bool.not_eq_true'] using h1
      cases hsc : e.score quorum_modifier with
      | none =>
        rw [if_pos h1']
        simp only [hsc, h1, Option.isSome_none, Bool.and_false, Bool.false_eq_true,
          if_false]
        exact ih acc
      | some s =>
        have hkey : e.score quorum_modifier =
            some (create_score e.confirmed_hash_hashed_with_pro_reg_tx
              quorum_modifier) :=
          score_isSome_eq e quorum_modifier (by rw [hsc]; rfl)
        rw [hsc] at hkey
        injection hkey with hs'
        subst hs'
        rw [if_pos h1']
        simp only [h1, Option.isSome_some, Bool.and_true, eq_self_iff_true,
          if_true, List.map_cons, List.foldl_cons]
        exact ih _
    · have h2 : (!hpmn_only || e.masternode_list_entry.mn_type.isHighPerformance)
          = false := Bool.eq_false_iff.mpr h1
      have h1' : ¬ (¬ hpmn_only = true ∨
          e.masternode_list_entry.mn_type.isHighPerformance = true) := by
        intro hcon
        apply h1
        rcases hcon with h | h
        · simp [Bool.eq_false_iff.mpr h]
        · simp [h]
      rw [if_neg h1']
      simp only [h2, Bool.false_and, Bool.false_eq_true, if_false]
      exact ih acc

/-- The values of the score map, in ascending key order, are exactly the
kept entries sorted ascending by their score, provided the kept entries
have pairwise distinct scores (a degenerate tie would make the
`BTreeMap` insert drop an entry). -/
theorem scores_values_eq (entries : List QualifiedMasternodeListEntry)
    (modifier : List Nat) (hp : Bool)
    (hdist : (entries.filter (fun e =>
        (!hp || e.masternode_list_entry.mn_type.isHighPerformance) &&
          (e.score modifier).isSome)).Pairwise
      (fun e1 e2 =>
        create_score e1.confirmed_hash_hashed_with_pro_reg_tx modifier ≠
          create_score e2.confirmed_hash_hashed_with_pro_reg_tx modifier)) :
    alValues (scores_for_quorum_for_masternodes entries modifier hp) =
      sortAsc (fun e1 e2 => scoreHashLt
          (create_score e1.confirmed_hash_hashed_with_pro_reg_tx modifier)
          (create_score e2.confirmed_hash_hashed_with_pro_reg_tx modifier))
        (entries.filter (fun e =>
          (!hp || e.masternode_list_entry.mn_type.isHighPerformance) &&
            (e.score modifier).isSome)) := by
  unfold scores_for_quorum_for_masternodes
  rw [scores_fold_eq_pairs modifier hp entries []]
  generalize hF : entries.filter (fun e =>
      (!hp || e.masternode_list_entry.mn_type.isHighPerformance) &&
        (e.score modifier).isSome) = F at hdist ⊢
  have hdistPairs : (F.map (fun e =>
      (create_score e.confirmed_hash_hashed_with_pro_reg_tx modifier, e))).Pairwise
      (fun p q => p.1 ≠ q.1) := List.pairwise_map.mpr hdist
  obtain ⟨hsorted, hperm⟩ := foldl_alInsert_sorted_perm scoreHashLt scoreHashLt_trans
    scoreHashLt_total_eq
    (F.map (fun e =>
      (create_score e.confirmed_hash_hashed_with_pro_reg_tx modifier, e))) []
    (by intro p _ hmem; simp [alKeys] at hmem) hdistPairs List.Pairwise.nil
  have hperm' : ((F.map (fun e =>
      (create_score e.confirmed_hash_hashed_with_pro_reg_tx modifier, e))).foldl
        (fun m p => alInsert scoreHashLt p.1 p.2 m) []).Perm
      (F.map (fun e =>
        (create_score e.confirmed_hash_hashed_with_pro_reg_tx modifier, e))) := by
    simpa using hperm
  have hcomp : (F.map (fun e =>
      (create_score e.confirmed_hash_hashed_with_pro_reg_tx modifier, e))).Pairwise
      (fun p q => scoreHashLt p.1 q.1 = true ∨ scoreHashLt q.1 p.1 = true) := by
    refine hdistPairs.imp ?_
    intro a b hne
    cases h1 : scoreHashLt a.1 b.1 with
    | true => exact Or.inl rfl
    | false =>
      cases h2 : scoreHashLt b.1 a.1 with
      | true => exact Or.inr rfl
      | false => exact absurd (scoreHashLt_total_eq a.1 b.1 h1 h2) hne
  have hsort_sorted := pairwise_sortAsc
    (fun p q : List Nat × QualifiedMasternodeListEntry => scoreHashLt p.1 q.1)
    (fun a b c hab hbc => scoreHashLt_trans a.1 b.1 c.1 hab hbc)
    (F.map (fun e =>
      (create_score e.confirmed_hash_hashed_with_pro_reg_tx modifier, e))) hcomp
  have heq := sorted_perm_eq
    (fun p q : List Nat × QualifiedMasternodeListEntry => scoreHashLt p.1 q.1)
    (fun a b h => scoreHashLt_asymm a.1 b.1 h) _ _
    (hperm'.trans (perm_sortAsc _ _).symm) hsorted hsort_sorted
  rw [heq]
  have hmap : (sortAsc (fun e1 e2 => scoreHashLt
        (create_score e1.confirmed_hash_hashed_with_pro_reg_tx modifier)
        (create_score e2.confirmed_hash_hashed_with_pro_reg_tx modifier)) F).map
      (fun e => (create_score e.confirmed_hash_hashed_with_pro_reg_tx modifier, e)) =
      sortAsc (fun p q => scoreHashLt p.1 q.1)
        (F.map (fun e =>
          (create_score e.confirmed_hash_hashed_with_pro_reg_tx modifier, e))) :=
    map_sortAsc (fun e => (create_score e.confirmed_hash_hashed_with_pro_reg_tx
      modifier, e)) (fun p q => scoreHashLt p.1 q.1) F
  rw [← hmap]
  simp only [alValues, List.map_map]
  have hcompid : (Prod.snd ∘ fun e : QualifiedMasternodeListEntry =>
      (create_score e.confirmed_hash_hashed_with_pro_reg_tx modifier, e)) = id := rfl
  rw [hcompid, List.map_id]

/-! ## Claim C7: non-rotated quorum membership -/

/-- C7: when the engine knows the height of the quorum hash and stores a
masternode list 8 blocks earlier, and the quorum modifier resolves, the
non-rotated membership is the top `llmq_type.size()` eligible entries of
that list ordered by descending byte-reversed score (the eligible entries
sorted ascending by the `ScoreHash` order, reversed, truncated), and an
entry is eligible iff it is valid, has a cached confirmed hash, and — if
and only if the quorum's LLMQ type is the network's platform type — the
`HighPerformance` constraint applies.  The kept entries are assumed to
have pairwise distinct scores, which the spec guarantees (the engine
forbids degenerate ties of the cryptographic hash). -/
theorem c7_non_rotated_membership (engine : MasternodeListEngine)
    (quorum : QualifiedQuorumEntry) (height : Nat) (L : MasternodeList)
    (modT : LLMQModifierType)
    (h1 : alGet quorum.quorum_entry.quorum_hash engine.block_heights = some height)
    (h2 : alGet (height - 8) engine.masternode_lists = some L)
    (h3 : new_quorum_modifier_type quorum.quorum_entry.llmq_type L.block_hash
      (height - 8) engine.known_chain_locks engine.network = .ok modT)
    (hdist : ((alValues L.masternodes).filter (fun e =>
        (!decide (quorum.quorum_entry.llmq_type = platform_type engine.network) ||
            e.masternode_list_entry.mn_type.isHighPerformance) &&
          (e.score modT.build_llmq_hash).isSome)).Pairwise
      (fun e1 e2 =>
        create_score e1.confirmed_hash_hashed_with_pro_reg_tx modT.build_llmq_hash ≠
          create_score e2.confirmed_hash_hashed_with_pro_reg_tx
            modT.build_llmq_hash)) :
    engine.find_non_rotated_masternodes_for_quorum quorum =
      .ok (((sortAsc (fun e1 e2 => scoreHashLt
            (create_score e1.confirmed_hash_hashed_with_pro_reg_tx
              modT.build_llmq_hash)
            (create_score e2.confirmed_hash_hashed_with_pro_reg_tx
              modT.build_llmq_hash))
          ((alValues L.masternodes).filter (fun e =>
            (!decide (quorum.quorum_entry.llmq_type = platform_type engine.network) ||
                e.masternode_list_entry.mn_type.isHighPerformance) &&
              (e.score modT.build_llmq_hash).isSome))).reverse).take
        (llmqSize quorum.quorum_entry.llmq_type)) ∧
    (∀ e : QualifiedMasternodeListEntry,
      ((!decide (quorum.quorum_entry.llmq_type = platform_type engine.network) ||
          e.masternode_list_entry.mn_type.isHighPerformance) &&
        (e.score modT.build_llmq_hash).isSome) = true ↔
      (e.masternode_list_entry.is_valid = true ∧
        e.confirmed_hash_hashed_with_pro_reg_tx.isSome = true ∧
        (quorum.quorum_entry.llmq_type = platform_type engine.network →
          e.masternode_list_entry.mn_type.isHighPerformance = true))) := by
  constructor
  · unfold MasternodeListEngine.find_non_rotated_masternodes_for_quorum
      MasternodeListEngine.masternode_list_and_height_for_block_hash_8_blocks_ago
    simp only [h1, h2, h3]
    refine congrArg Except.ok ?_
    unfold MasternodeList.valid_masternodes_for_quorum MasternodeList.scores_for_quorum
    rw [scores_values_eq (alValues L.masternodes) modT.build_llmq_hash
      (decide (quorum.quorum_entry.llmq_type = platform_type engine.network)) hdist]
  · intro e
    rw [Bool.and_eq_true, Bool.or_eq_true, score_isSome_iff]
    constructor
    · rintro ⟨hplat, hv, hc⟩
      refine ⟨hv, hc, fun heq => ?_⟩
      rcases hplat with h | h
      · rw [heq] at h
        simp at h
      · exact h
    · rintro ⟨hv, hc, himp⟩
      refine ⟨?_, hv, hc⟩
      by_cases heq : quorum.quorum_entry.llmq_type = platform_type engine.network
      · exact Or.inr (himp heq)
      · exact Or.inl (by simp [heq])

/-- C7 (witness): the theorem applied to the concrete engine `c7Engine`
and quorum `c7Quorum` (test LLMQ type, mainnet platform type differs, so
the platform filter is off; the invalid entry is excluded). -/
theorem c7_non_rotated_membership_witness :
    c7Engine.find_non_rotated_masternodes_for_quorum c7Quorum =
      .ok (((sortAsc (fun e1 e2 => scoreHashLt
            (create_score e1.confirmed_hash_hashed_with_pro_reg_tx
              c7Mod.build_llmq_hash)
            (create_score e2.confirmed_hash_hashed_with_pro_reg_tx
              c7Mod.build_llmq_hash))
          ((alValues c7L.masternodes).filter (fun e =>
            (!decide (c7Quorum.quorum_entry.llmq_type = platform_type
                c7Engine.network) ||
                e.masternode_list_entry.mn_type.isHighPerformance) &&
              (e.score c7Mod.build_llmq_hash).isSome))).reverse).take
        (llmqSize c7Quorum.quorum_entry.llmq_type)) :=
  (c7_non_rotated_membership c7Engine c7Quorum 10 c7L c7Mod (by decide) (by decide)
    (by decide) (by decide)).1

/-! ## Claim C8: the SkipFirst skip-list walk -/

theorem processedSkipList_aux (a : Nat) (ha : a ≠ 0) :
    ∀ (rest out : List Nat),
      (rest.foldl
        (fun acc s =>
          if acc.1 = 0 then (s, acc.2 ++ [s]) else (acc.1, acc.2 ++ [acc.1 + s]))
        (a, out)).2 = out ++ rest.map (fun r => a + r) := by
  intro rest
  induction rest with
  | nil => intro out; simp
  | cons r t ih =>
    intro out
    simp only [List.foldl_cons, ha, if_false, List.map_cons]
    rw [ih (out ++ [a + r])]
    simp

theorem skipFirstQuarter_length (mns : List QualifiedMasternodeListEntry)
    (processed : List Nat) (quarter_size : Nat) :
    ∀ (fuel idx skip_idx : Nat) (quarter : List QualifiedMasternodeListEntry)
      (out : List QualifiedMasternodeListEntry × Nat × Nat),
      quarter.length ≤ quarter_size →
      skipFirstQuarter mns processed quarter_size fuel idx skip_idx quarter =
        some out →
      out.1.length = quarter_size := by
  intro fuel
  induction fuel with
  | zero =>
    intro idx skip_idx quarter out _ h
    simp [skipFirstQuarter] at h
  | succ f ih =>
    intro idx skip_idx quarter out hle h
    unfold skipFirstQuarter at h
    by_cases h1 : quarter.length < quarter_size
    · rw [if_pos h1] at h
      by_cases h2 : mns.length = 0
      · rw [if_pos h2] at h
        exact absurd h (by simp)
      · rw [if_neg h2] at h
        by_cases h3 : processed.get? skip_idx = some idx
        · rw [if_pos h3] at h
          exact ih _ _ _ _ (Nat.le_of_lt h1) h
        · rw [if_neg h3] at h
          cases hm : mns.get? idx with
          | none => rw [hm] at h; exact absurd h (by simp)
          | some e =>
            rw [hm] at h
            exact ih _ _ _ _ (by simpa using Nat.succ_le_of_lt h1) h
    · rw [if_neg h1] at h
      injection h with h'
      rw [← h']
      show quarter.length = quarter_size
      omega

theorem skipFirstQuarters_lengths (mns : List QualifiedMasternodeListEntry)
    (processed : List Nat) (quarter_size : Nat) :
    ∀ (count idx skip_idx : Nat)
      (quarters : List (List QualifiedMasternodeListEntry)),
      skipFirstQuarters mns processed quarter_size count idx skip_idx =
        some quarters →
      quarters.length = count ∧ ∀ q ∈ quarters, q.length = quarter_size := by
  intro count
  induction count with
  | zero =>
    intro idx skip_idx quarters h
    simp only [skipFirstQuarters, Option.some.injEq] at h
    subst h
    exact ⟨rfl, by simp⟩
  | succ c ih =>
    intro idx skip_idx quarters h
    unfold skipFirstQuarters at h
    cases hq : skipFirstQuarter mns processed quarter_size
        (quarter_size + processed.length + 1) idx skip_idx [] with
    | none => rw [hq] at h; simp at h
    | some out =>
      rw [hq] at h
      obtain ⟨q, i', s'⟩ := out
      rw [Option.map_eq_some'] at h
      obtain ⟨rest, hrest, hq2⟩ := h
      subst hq2
      obtain ⟨hlen, hall⟩ := ih i' s' rest hrest
      have hql := skipFirstQuarter_length mns processed quarter_size _ idx skip_idx
        [] (q, i', s') (by simp) hq
      refine ⟨by simp [hlen], ?_⟩
      intro x hx
      rcases List.mem_cons.mp hx with rfl | hx'
      · exact hql
      · exact hall x hx'

/-- C8 (counterexample): on skip list `[1, 2, 3]` the code's processed
skip indices are `[1, 3, 4]` — the first entry plus each later relative
entry — not the running prefix sums `[1, 3, 6]`, and on a seven-entry
list (two quorums, quarter size two) the two index lists select different
quarters. -/
theorem c8_prefix_sum_counterexample :
    processedSkipList [1, 2, 3] ≠ specPrefixSumSkipList [1, 2, 3] ∧
    skipFirstQuarters c8Mns (processedSkipList [1, 2, 3]) 2 2 0 0 ≠
      skipFirstQuarters c8Mns (specPrefixSumSkipList [1, 2, 3]) 2 2 0 0 := by
  decide

/-- C8 (amended): in the `SkipFirst` walk the absolute skip indices are
**not** running prefix sums: the accumulator is set once, to the first
non-zero entry `s`, and every later relative entry `r` becomes `s + r`;
walking the concatenated `[unused..., used...]` list while honoring those
skips yields, whenever it completes, exactly `quorum_count` quarters of
exactly `quarter_size` entries each. -/
theorem c8_skip_first :
    (∀ (s : Nat) (rest : List Nat), s ≠ 0 →
      processedSkipList (s :: rest) = s :: rest.map (fun r => s + r)) ∧
    (∀ (used_mns unused_mns : List QualifiedMasternodeListEntry)
      (modifier : List Nat) (quorum_count quarter_size : Nat)
      (skip_list : List Nat) (quarters : List (List QualifiedMasternodeListEntry)),
      apply_skip_strategy_skip_first used_mns unused_mns modifier quorum_count
          quarter_size skip_list = some quarters →
      quarters.length = quorum_count ∧ ∀ q ∈ quarters, q.length = quarter_size) := by
  constructor
  · intro s rest hs
    unfold processedSkipList
    simp only [List.foldl_cons]
    show (rest.foldl
        (fun acc s =>
          if acc.1 = 0 then (s, acc.2 ++ [s]) else (acc.1, acc.2 ++ [acc.1 + s]))
        (s, [s])).2 = s :: rest.map (fun r => s + r)
    rw [processedSkipList_aux s hs rest [s]]
    simp
  · intro used_mns unused_mns modifier quorum_count quarter_size skip_list quarters h
    unfold apply_skip_strategy_skip_first at h
    exact skipFirstQuarters_lengths _ _ _ _ _ _ _ h

/-- C8 (witness): the amended theorem applied to skip list `[1, 2, 3]`
(processed indices `[1, 3, 4]`) and to the walk over seven entries with
two quorums of quarter size two. -/
theorem c8_skip_first_witness :
    processedSkipList [1, 2, 3] = [1, 3, 4] ∧
    [[c7QMN 13 true, c7QMN 11 true], [c7QMN 14 true, c7QMN 12 true]].length = 2 :=
  ⟨c8_skip_first.1 1 [2, 3] (by decide),
   (c8_skip_first.2 [] c8Mns [3] 2 2 [1, 2, 3]
     [[c7QMN 13 true, c7QMN 11 true], [c7QMN 14 true, c7QMN 12 true]]
     (by decide)).1⟩

end Dashcore
